import Mathlib

set_option autoImplicit false

/-! Shallow embedding of the YAML/polars data-validation pipeline
(`data-validation-pipeline-w-yaml-polars-py.py`): the `DataHarmonizer`
(alias-based renaming and non-strict type casting with a structured
action log) and the `DataValidator` (existence, type, range,
allowed/forbidden value and regex checks with a structured finding log),
over an in-memory columnar table model. -/

/-- Concrete polars physical dtypes mentioned by the pipeline
(`type_map` of the harmonizer and `polars_dtypes` of the validator). -/
inductive PDtype where
  | string
  | categorical
  | enum
  | float32
  | float64
  | decimal
  | int8
  | int16
  | int32
  | int64
  | uint8
  | uint16
  | uint32
  | uint64
  | date
  | datetime
  | duration
  | time
  | boolean
  deriving DecidableEq

/-- The printed name of a physical dtype, as `str(dtype)` renders it in polars. -/
def PDtype.render : PDtype → String
  | .string => "String"
  | .categorical => "Categorical"
  | .enum => "Enum"
  | .float32 => "Float32"
  | .float64 => "Float64"
  | .decimal => "Decimal"
  | .int8 => "Int8"
  | .int16 => "Int16"
  | .int32 => "Int32"
  | .int64 => "Int64"
  | .uint8 => "UInt8"
  | .uint16 => "UInt16"
  | .uint32 => "UInt32"
  | .uint64 => "UInt64"
  | .date => "Date"
  | .datetime => "Datetime"
  | .duration => "Duration"
  | .time => "Time"
  | .boolean => "Boolean"

/-- A cell value.  Floats are modelled as rationals (the float values the
pipeline's checks compare are exact small literals), dates as a day count. -/
inductive Value where
  | vInt (n : Int)
  | vFloat (q : ℚ)
  | vStr (s : String)
  | vBool (b : Bool)
  | vDate (d : Int)
  deriving DecidableEq

/-- Python `str(value)`, used by `_get_example_msg` via `map(str, examples)`.
Float and date rendering is a backend detail not exercised by the checks. -/
def pyStr : Value → String
  | .vInt n => toString n
  | .vFloat q => toString q
  | .vStr s => s
  | .vBool b => if b then "True" else "False"
  | .vDate d => toString d

/-- The polars rendering of a value when cast to `pl.String`
(differs from Python `str` on booleans). -/
def plStr : Value → String
  | .vInt n => toString n
  | .vFloat q => toString q
  | .vStr s => s
  | .vBool b => if b then "true" else "false"
  | .vDate d => toString d

/-- Digit-list accumulator for integer parsing (structural, so that
concrete casts evaluate). -/
def digitsAux (acc : Nat) : List Char → Option Nat
  | [] => some acc
  | c :: cs => if c.isDigit then digitsAux (acc * 10 + (c.toNat - 48)) cs else none

/-- Integer parse of a string, as the polars string-to-integer cast
accepts it: optional leading minus then decimal digits; anything else is
unconvertible. -/
def parseIntStr (s : String) : Option Int :=
  match s.data with
  | [] => none
  | ['-'] => none
  | '-' :: rest => (digitsAux 0 rest).map (fun n => -(n : Int))
  | ds => (digitsAux 0 ds).map (fun n => (n : Int))

/-- Non-strict polars `cast` of one non-null value to a target dtype:
`none` is the unconvertible case (which `strict=False` turns into null).
Rounding of float-to-int and the boolean/date parse tables are
backend-defined details (spec leaves them open); the cases below fix one
concrete, polars-like table. -/
def castVal (v : Value) (t : PDtype) : Option Value :=
  match t, v with
  | .string, w => some (.vStr (plStr w))
  | .int64, .vInt n => some (.vInt n)
  | .int64, .vFloat q => some (.vInt q.floor)
  | .int64, .vBool b => some (.vInt (cond b 1 0))
  | .int64, .vStr s => (parseIntStr s).map Value.vInt
  | .int64, .vDate d => some (.vInt d)
  | .float64, .vInt n => some (.vFloat (n : ℚ))
  | .float64, .vFloat q => some (.vFloat q)
  | .float64, .vBool b => some (.vFloat (cond b 1 0))
  | .float64, .vStr s => (parseIntStr s).map (fun n => Value.vFloat (n : ℚ))
  | .float64, .vDate _ => none
  | .boolean, .vBool b => some (.vBool b)
  | .boolean, .vInt n => some (.vBool (decide (n ≠ 0)))
  | .boolean, .vFloat q => some (.vBool (decide (q ≠ 0)))
  | .boolean, .vStr s =>
    if s = "true" then some (.vBool true)
    else if s = "false" then some (.vBool false)
    else none
  | .boolean, .vDate _ => none
  | .date, .vDate d => some (.vDate d)
  | .date, .vInt n => some (.vDate n)
  | .date, _ => none
  | _, _ => none

/-- One column: its physical dtype and its cells (`none` is a null). -/
structure Col where
  dtype : PDtype
  values : List (Option Value)
  deriving DecidableEq

/-- A columnar table: named columns in order. -/
structure DFrame where
  cols : List (String × Col)
  deriving DecidableEq

/-- Model of `df.columns`. -/
def DFrame.columns (df : DFrame) : List String := df.cols.map Prod.fst

/-- Model of `df[name]`, as an option (column lookup by name). -/
def DFrame.col? (df : DFrame) (name : String) : Option Col :=
  (df.cols.find? (fun pr => pr.1 == name)).map Prod.snd

/-- Model of `series.null_count()`. -/
def Col.nullCount (c : Col) : Nat := c.values.countP (fun cell => cell.isNone)

/-- Model of `len(df)`: the number of rows (length of the first column). -/
def DFrame.height (df : DFrame) : Nat :=
  match df.cols with
  | [] => 0
  | pr :: _ => pr.2.values.length

/-- Well-formedness of a table: all columns have the same number of rows. -/
def DFrame.Wf (df : DFrame) : Prop :=
  ∀ pr ∈ df.cols, pr.2.values.length = df.height

/-- Keep the rows whose mask bit is true. -/
def applyMask (mask : List Bool) (vals : List (Option Value)) : List (Option Value) :=
  ((mask.zip vals).filter (fun p => p.1)).map Prod.snd

/-- The result of a single cast to dtype `t` of every cell of a column
(`pl.col(name).cast(t, strict=False)`): unconvertible cells become null. -/
def castColumn (c : Col) (t : PDtype) : Col :=
  ⟨t, c.values.map (fun cell => cell.bind (fun v => castVal v t))⟩

/-- Model of `df.with_columns(pl.col(name).cast(t, strict=False))`. -/
def DFrame.castCol (df : DFrame) (name : String) (t : PDtype) : DFrame :=
  ⟨df.cols.map (fun pr => if pr.1 = name then (pr.1, castColumn pr.2 t) else pr)⟩

/-- Model of `df.filter(...)` over one column: the ternary-logic predicate `p`
is evaluated on the named column, and only rows where it yields `some true`
are kept (polars drops null-valued filter rows). -/
def DFrame.filterByCol (df : DFrame) (name : String) (p : Option Value → Option Bool) : DFrame :=
  match df.col? name with
  | none => df
  | some c =>
    let mask := c.values.map (fun cell => p cell == some true)
    ⟨df.cols.map (fun pr => (pr.1, ⟨pr.2.dtype, applyMask mask pr.2.values⟩))⟩

/-- Python-dict lookup in an association list (first binding wins;
`insertA` keeps keys unique, so there is at most one). -/
def lookupA (m : List (String × String)) (k : String) : Option String :=
  (m.find? (fun pr => pr.1 == k)).map Prod.snd

/-- Python-dict insertion `m[k] = v`: overwrite an existing binding of `k`,
else append a new one. -/
def insertA (m : List (String × String)) (k v : String) : List (String × String) :=
  if m.any (fun pr => pr.1 == k) then
    m.map (fun pr => if pr.1 == k then (k, v) else pr)
  else m ++ [(k, v)]

/-- Model of `df.rename(mapping)`: columns whose name is a key take the mapped
name, all others pass through. -/
def DFrame.renameCols (df : DFrame) (m : List (String × String)) : DFrame :=
  ⟨df.cols.map (fun pr => ((lookupA m pr.1).getD pr.1, pr.2))⟩

/-- One column's schema entry.  `regex` carries the pattern source text
together with the match predicate the backend regex engine gives it
(`str.contains`); `optional` defaults to false as `props.get("optional",
False)` does. -/
structure ColProps where
  type : Option String := none
  aliases : List String := []
  optional : Bool := false
  range : Option (Value × Value) := none
  allowed_value : Option (List Value) := none
  not_allowed_value : Option (List Value) := none
  regex : Option (String × (String → Bool)) := none

/-- The schema: canonical column name to properties, in declaration order. -/
abbrev Schema := List (String × ColProps)

/-- The canonical column names, in order. -/
def schemaKeys (s : Schema) : List String := s.map Prod.fst

/-- The harmonizer's `type_map`: schema type string to cast target. -/
def typeMapLookup : String → Option PDtype
  | "string" => some .string
  | "float" => some .float64
  | "integer" => some .int64
  | "date" => some .date
  | "boolean" => some .boolean
  | _ => none

/-- One row of the harmonization report. -/
structure LogEntry where
  action : String
  column : String
  details : String
  deriving DecidableEq

/-- Scan a column's aliases in declared order for the first one present
in the table (the inner `for alias in aliases ... break` loop). -/
def findAlias (dfCols : List String) (aliases : List String) : Option String :=
  aliases.find? (fun a => decide (a ∈ dfCols))

/-- The `Rename` log entry for pending rename `alias -> canonical`. -/
def renameEntryOf (p : String × String) : LogEntry :=
  ⟨"Rename", p.2, "Renamed from '" ++ p.1 ++ "'"⟩

/-- One iteration of the rename-resolution loop: skip columns already
present, else record the first matching alias in the pending rename map
and append a `Rename` log entry. -/
def renameStep (dfCols : List String) (acc : List (String × String) × List LogEntry)
    (item : String × ColProps) : List (String × String) × List LogEntry :=
  if item.1 ∈ dfCols then acc
  else
    match findAlias dfCols item.2.aliases with
    | none => acc
    | some a => (insertA acc.1 a item.1, acc.2 ++ [renameEntryOf (a, item.1)])

/-- Step A of `harmonize`: the pending rename map and the `Rename` log,
scanned against a snapshot of the table's column names. -/
def renamePhase (schema : Schema) (dfCols : List String) :
    List (String × String) × List LogEntry :=
  schema.foldl (renameStep dfCols) ([], [])

/-- One iteration of the casting loop: for a present column whose schema
type maps to a known target and whose dtype differs, cast non-strictly and
log `Cast Fail` (with the count of newly nulled rows) or `Cast Success`. -/
def castStep (acc : DFrame × List LogEntry) (item : String × ColProps) :
    DFrame × List LogEntry :=
  match acc.1.col? item.1 with
  | none => acc
  | some c =>
    match item.2.type with
    | none => acc
    | some ts =>
      match typeMapLookup ts with
      | none => acc
      | some target =>
        if c.dtype = target then acc
        else
          let nullsBefore := c.nullCount
          let df' := acc.1.castCol item.1 target
          let nullsAfter :=
            match df'.col? item.1 with
            | some c' => c'.nullCount
            | none => 0
          let failed : Int := (nullsAfter : Int) - (nullsBefore : Int)
          if 0 < failed then
            (df', acc.2 ++
              [⟨"Cast Fail", item.1,
                "Failed to cast " ++ toString failed ++ " rows to " ++ ts⟩])
          else
            (df', acc.2 ++
              [⟨"Cast Success", item.1,
                "Cast from " ++ PDtype.render c.dtype ++ " to " ++ ts⟩])

/-- Step B of `harmonize`: type casting over the renamed table. -/
def castPhase (schema : Schema) (df : DFrame) : DFrame × List LogEntry :=
  schema.foldl castStep (df, [])

/-- Model of `DataHarmonizer.harmonize`: rename resolution, one batch rename
(guarded by `if rename_map:`), then casting; returns the transformed
table and the concatenated report. -/
def harmonize (schema : Schema) (df : DFrame) : DFrame × List LogEntry :=
  let ren := renamePhase schema df.columns
  let df1 := if ren.1.isEmpty then df else df.renameCols ren.1
  let cst := castPhase schema df1
  (cst.1, ren.2 ++ cst.2)

/-- A parsed schema document.  `mapping` is a YAML mapping whose values
are taken already structured as column specifications (the inner layout
is not at issue in the load path); `nonMapping` is any other parsed YAML
value (null, list, scalar), which does not support `.get`. -/
inductive Doc where
  | mapping (kvs : List (String × Schema))
  | nonMapping

/-- A raised Python exception, by class. -/
inductive PyErr where
  | valueError (msg : String)
  | attributeError (msg : String)

/-- Model of `_load_schema` (identical in both classes): `open` + `yaml.safe_load`
either produce a document or raise, and any raise is wrapped into
`ValueError("Failed to load schema: ...")`. -/
def loadSchemaDoc (src : Except String Doc) : Except PyErr Doc :=
  match src with
  | .ok d => .ok d
  | .error e => .error (.valueError ("Failed to load schema: " ++ e))

/-- Key lookup in the top-level mapping of the document. -/
def lookupSchemaField (kvs : List (String × Schema)) (k : String) : Option Schema :=
  (kvs.find? (fun pr => pr.1 == k)).map Prod.snd

/-- Model of the `.get("schema", default)` call on the loaded document: on a mapping, the value
under "schema" (or an empty schema); on anything else, an
`AttributeError` as Python raises for a missing `.get` attribute. -/
def pyGetSchema (d : Doc) : Except PyErr Schema :=
  match d with
  | .mapping kvs => .ok ((lookupSchemaField kvs "schema").getD [])
  | .nonMapping => .error (.attributeError "object has no attribute 'get'")

/-- Model of `DataHarmonizer.__init__`: the `self.schema` it ends up with, or the
exception construction raises. -/
def mkHarmonizer (src : Except String Doc) : Except PyErr Schema :=
  match loadSchemaDoc src with
  | .error e => .error e
  | .ok d => pyGetSchema d

/-- Model of `DataValidator.__init__`: same load path as the harmonizer. -/
def mkValidator (src : Except String Doc) : Except PyErr Schema :=
  match loadSchemaDoc src with
  | .error e => .error e
  | .ok d => pyGetSchema d

/-- The validator's `polars_dtypes`: coarse schema category to the list
of accepted concrete physical types. -/
def dtypeSet : String → Option (List PDtype)
  | "string" => some [.string, .categorical, .enum]
  | "float" => some [.float32, .float64, .decimal]
  | "integer" => some [.int8, .int16, .int32, .int64, .uint8, .uint16, .uint32, .uint64]
  | "date" => some [.date, .datetime, .duration, .time]
  | "boolean" => some [.boolean]
  | _ => none

/-- One row of the validation report.  The field `varName` models the
report's `variable` column (`variable` is a Lean keyword). -/
structure Finding where
  varName : String
  check : String
  description : String
  examples : String
  deriving DecidableEq

/-- First-occurrence deduplication (the deterministic order this
embedding fixes for `series.unique()`, whose order polars leaves open). -/
def uniqAux (seen : List (Option Value)) : List (Option Value) → List (Option Value)
  | [] => []
  | x :: xs => if x ∈ seen then uniqAux seen xs else x :: uniqAux (x :: seen) xs

/-- Model of `series.unique()` as a list. -/
def uniqVals (l : List (Option Value)) : List (Option Value) := uniqAux [] l

/-- Model of `DataValidator._get_example_msg`: up to three unique non-null example
values, with a `... (+N more)` suffix past three; any retrieval failure
(here: the column is absent) degrades to "N/A". -/
def getExampleMsg (df : DFrame) (colName : String) : String :=
  match df.col? colName with
  | none => "N/A"
  | some c =>
    let invalidVals := (uniqVals c.values).filterMap id
    let count := invalidVals.length
    let exampleStr := String.intercalate ", " ((invalidVals.take 3).map pyStr)
    if count > 3 then
      exampleStr ++ ", ... (+" ++ toString (count - 3) ++ " more)"
    else exampleStr

/-- Kleene disjunction of polars boolean expressions (`|`). -/
def kOr (a b : Option Bool) : Option Bool :=
  match a, b with
  | some true, _ => some true
  | _, some true => some true
  | some false, some false => some false
  | _, _ => none

/-- Polars `<` on two non-null values: comparable pairs give a boolean,
anything else (after the schema's permissive reading) gives null. -/
def ltV : Value → Value → Option Bool
  | .vInt a, .vInt b => some (decide (a < b))
  | .vInt a, .vFloat q => some (decide ((a : ℚ) < q))
  | .vFloat q, .vInt b => some (decide (q < (b : ℚ)))
  | .vFloat a, .vFloat b => some (decide (a < b))
  | .vStr a, .vStr b => some (decide (a < b))
  | .vBool a, .vBool b => some (!a && b)
  | .vDate a, .vDate b => some (decide (a < b))
  | _, _ => none

/-- Polars `>` on two non-null values. -/
def gtV (a b : Value) : Option Bool := ltV b a

/-- The range check's filter predicate: `(col < low) | (col > high)`. -/
def rangePred (low high : Value) (cell : Option Value) : Option Bool :=
  kOr (cell.bind (fun v => ltV v low)) (cell.bind (fun v => gtV v high))

/-- Model of `isinstance(x, str)` on a literal. -/
def isStrLit : Value → Bool
  | .vStr _ => true
  | _ => false

/-- Model of `is_in` membership of one non-null value in a literal list, relative
to the dtype of the compared column: against a textual column the
literals are rendered to text (polars aligns the list to the column's
dtype), otherwise plain value equality. -/
def memIn (dt : PDtype) (v : Value) (lst : List Value) : Bool :=
  match dt, v with
  | .string, .vStr s => lst.any (fun litv => plStr litv == s)
  | _, w => lst.any (fun litv => litv == w)

/-- Kleene negation (`~expr`). -/
def notK (a : Option Bool) : Option Bool := a.map (fun b => !b)

/-- The text-coercion trigger of the allow/deny checks: the list has at
least one text literal and the column is not already `pl.String`. -/
def strListTrigger (lst : List Value) (dt : PDtype) : Bool :=
  lst.any isStrLit && !(dt == PDtype.string)

/-- Model of `check_expr.is_in(lst)` where `check_expr` is the column possibly
cast to text first (exactly when the trigger fires). -/
def inListPred (dt : PDtype) (lst : List Value) (cell : Option Value) : Option Bool :=
  if strListTrigger lst dt then
    (cell.bind (fun v => castVal v PDtype.string)).map (fun v => memIn PDtype.string v lst)
  else
    cell.map (fun v => memIn dt v lst)

/-- The allowed-values (whitelist) filter: rows NOT in the list. -/
def allowedPred (dt : PDtype) (lst : List Value) (cell : Option Value) : Option Bool :=
  notK (inListPred dt lst cell)

/-- The forbidden-values (blacklist) filter: rows IN the list. -/
def forbiddenPred (dt : PDtype) (lst : List Value) (cell : Option Value) : Option Bool :=
  inListPred dt lst cell

/-- The regex filter: `~col.str.contains(pattern)` on non-null text cells,
null elsewhere. -/
def regexPred (f : String → Bool) (cell : Option Value) : Option Bool :=
  match cell with
  | some (.vStr s) => some (!(f s))
  | _ => none

/-- The type check block of `validate`. -/
def typeCheck (colName : String) (ts? : Option String) (dt : PDtype) : List Finding :=
  match ts? with
  | none => []
  | some ts =>
    match dtypeSet ts with
    | none => []
    | some valid =>
      if dt ∈ valid then []
      else [⟨colName, "Type", "Expected " ++ ts ++ ", got " ++ PDtype.render dt, "N/A"⟩]

/-- The range check block of `validate`. -/
def rangeCheck (df : DFrame) (colName : String) (rng : Option (Value × Value)) : List Finding :=
  match rng with
  | none => []
  | some pr =>
    let invalid := df.filterByCol colName (rangePred pr.1 pr.2)
    if invalid.height = 0 then []
    else [⟨colName, "Range",
      toString invalid.height ++ " rows outside [" ++ pyStr pr.1 ++ ", " ++ pyStr pr.2 ++ "]",
      getExampleMsg invalid colName⟩]

/-- The allowed-values check block of `validate`. -/
def allowedCheck (df : DFrame) (colName : String) (dt : PDtype)
    (lst? : Option (List Value)) : List Finding :=
  match lst? with
  | none => []
  | some lst =>
    let invalid := df.filterByCol colName (allowedPred dt lst)
    if invalid.height = 0 then []
    else [⟨colName, "Allowed Values",
      toString invalid.height ++ " rows have invalid values",
      getExampleMsg invalid colName⟩]

/-- The not-allowed-values check block of `validate`. -/
def forbiddenCheck (df : DFrame) (colName : String) (dt : PDtype)
    (lst? : Option (List Value)) : List Finding :=
  match lst? with
  | none => []
  | some lst =>
    let invalid := df.filterByCol colName (forbiddenPred dt lst)
    if invalid.height = 0 then []
    else [⟨colName, "Forbidden Values",
      toString invalid.height ++ " rows found in blacklist",
      getExampleMsg invalid colName⟩]

/-- The regex check block of `validate` (runs only on `pl.String` columns). -/
def regexCheck (df : DFrame) (colName : String) (dt : PDtype)
    (rx : Option (String × (String → Bool))) : List Finding :=
  match rx with
  | none => []
  | some pr =>
    if dt = PDtype.string then
      let invalid := df.filterByCol colName (regexPred pr.2)
      if invalid.height = 0 then []
      else [⟨colName, "Regex",
        toString invalid.height ++ " rows mismatch pattern '" ++ pr.1 ++ "'",
        getExampleMsg invalid colName⟩]
    else []

/-- The whole per-column body of the `validate` loop: an absent column
gives at most an `Existence` finding and short-circuits; a present
column runs the five checks in source order. -/
def checkColumn (df : DFrame) (colName : String) (props : ColProps) : List Finding :=
  match df.col? colName with
  | none =>
    if props.optional then []
    else [⟨colName, "Existence", "Column not found", "N/A"⟩]
  | some c =>
    typeCheck colName props.type c.dtype
      ++ rangeCheck df colName props.range
      ++ allowedCheck df colName c.dtype props.allowed_value
      ++ forbiddenCheck df colName c.dtype props.not_allowed_value
      ++ regexCheck df colName c.dtype props.regex

/-- Model of `DataValidator.validate`: the findings accumulated over the schema in
declaration order. -/
def validate (schema : Schema) (df : DFrame) : List Finding :=
  schema.foldl (fun acc it => acc ++ checkColumn df it.1 it.2) []

/-- Specification-side characterization of rename resolution: the pending
renames `(alias, canonical)` the scan records, in schema order. -/
def selectedPairs (schema : Schema) (dfCols : List String) : List (String × String) :=
  schema.filterMap (fun it =>
    if it.1 ∈ dfCols then none
    else (findAlias dfCols it.2.aliases).map (fun a => (a, it.1)))

/-- Specification-side characterization of one casting iteration: the log
entries it appends (zero or one). -/
def castEntriesOf (df : DFrame) (it : String × ColProps) : List LogEntry :=
  match df.col? it.1 with
  | none => []
  | some c =>
    match it.2.type with
    | none => []
    | some ts =>
      match typeMapLookup ts with
      | none => []
      | some target =>
        if c.dtype = target then []
        else
          let c' := castColumn c target
          if 0 < (c'.nullCount : Int) - (c.nullCount : Int) then
            [⟨"Cast Fail", it.1,
              "Failed to cast " ++ toString ((c'.nullCount : Int) - (c.nullCount : Int)) ++
                " rows to " ++ ts⟩]
          else
            [⟨"Cast Success", it.1,
              "Cast from " ++ PDtype.render c.dtype ++ " to " ++ ts⟩]

/-- Specification-side characterization of one casting iteration: the
table it leaves behind. -/
def castDfOf (df : DFrame) (it : String × ColProps) : DFrame :=
  match df.col? it.1 with
  | none => df
  | some c =>
    match it.2.type with
    | none => df
    | some ts =>
      match typeMapLookup ts with
      | none => df
      | some target =>
        if c.dtype = target then df else df.castCol it.1 target

/-- Does a constructed harmonizer/validator fail with the wrapped
schema-load error (the `ValueError` both `_load_schema` methods raise)? -/
def isSchemaValueErr (r : Except PyErr Schema) : Bool :=
  match r with
  | .error (.valueError _) => true
  | _ => false

/-! ### Basic lemmas about the table model -/

theorem schemaKeys_cons (it : String × ColProps) (rest : Schema) :
    schemaKeys (it :: rest) = it.1 :: schemaKeys rest := rfl

theorem col?_eq_none_iff {df : DFrame} {n : String} :
    df.col? n = none ↔ n ∉ df.columns := by
  simp only [DFrame.col?, DFrame.columns, Option.map_eq_none', List.find?_eq_none,
    List.mem_map, beq_iff_eq, not_exists, not_and]

theorem col?_mem {df : DFrame} {n : String} {c : Col} (h : df.col? n = some c) :
    ∃ pr ∈ df.cols, pr.1 = n ∧ pr.2 = c := by
  simp only [DFrame.col?, Option.map_eq_some'] at h
  obtain ⟨pr, hfind, h2⟩ := h
  refine ⟨pr, List.mem_of_find?_eq_some hfind, ?_, h2⟩
  simpa using List.find?_some hfind

theorem find?_map_fst (cols : List (String × Col)) (g : String × Col → Col) (n : String) :
    (cols.map (fun pr => (pr.1, g pr))).find? (fun pr => pr.1 == n)
      = (cols.find? (fun pr => pr.1 == n)).map (fun pr => (pr.1, g pr)) := by
  induction cols with
  | nil => rfl
  | cons pr rest ih =>
    by_cases h : pr.1 == n
    · simp [List.find?, h]
    · simp [List.find?, h, ih]

theorem col?_map_snd (cols : List (String × Col)) (g : String × Col → Col) (n : String) :
    (DFrame.mk (cols.map (fun pr => (pr.1, g pr)))).col? n
      = ((DFrame.mk cols).cols.find? (fun pr => pr.1 == n)).map (fun pr => g pr) := by
  simp [DFrame.col?, find?_map_fst, Option.map_map]
  rfl

/-! ### Rename-phase characterization -/

theorem findAlias_mem {dfCols aliases : List String} {a : String}
    (h : findAlias dfCols aliases = some a) : a ∈ dfCols ∧ a ∈ aliases := by
  unfold findAlias at h
  have hp := List.find?_some h
  simp only [decide_eq_true_eq] at hp
  exact ⟨hp, List.mem_of_find?_eq_some h⟩

theorem findAlias_first {dfCols : List String} {pre post : List String} {a : String}
    (ha : a ∈ dfCols) (hpre : ∀ b ∈ pre, b ∉ dfCols) :
    findAlias dfCols (pre ++ a :: post) = some a := by
  induction pre with
  | nil => simp [findAlias, List.find?_cons_of_pos, ha]
  | cons b rest ih =>
    have hb : b ∉ dfCols := hpre b (by simp)
    have : findAlias dfCols (rest ++ a :: post) = some a :=
      ih (fun x hx => hpre x (by simp [hx]))
    simpa [findAlias, List.find?_cons_of_neg, hb] using this

theorem findAlias_none {dfCols aliases : List String}
    (h : ∀ b ∈ aliases, b ∉ dfCols) : findAlias dfCols aliases = none := by
  simp only [findAlias, List.find?_eq_none]
  intro b hb
  simpa using h b hb

theorem renamePhase_go (dfCols : List String) (schema : Schema) :
    ∀ (m : List (String × String)) (logs : List LogEntry),
    schema.foldl (renameStep dfCols) (m, logs) =
      ((selectedPairs schema dfCols).foldl (fun acc p => insertA acc p.1 p.2) m,
       logs ++ (selectedPairs schema dfCols).map renameEntryOf) := by
  induction schema with
  | nil => intro m logs; simp [selectedPairs]
  | cons it rest ih =>
    intro m logs
    by_cases hmem : it.1 ∈ dfCols
    · have hstep : renameStep dfCols (m, logs) it = (m, logs) := by
        simp [renameStep, hmem]
      have hsel : selectedPairs (it :: rest) dfCols = selectedPairs rest dfCols := by
        simp [selectedPairs, hmem]
      simp only [List.foldl_cons, hstep, hsel, ih]
    · cases hfind : findAlias dfCols it.2.aliases with
      | none =>
        have hstep : renameStep dfCols (m, logs) it = (m, logs) := by
          simp [renameStep, hmem, hfind]
        have hsel : selectedPairs (it :: rest) dfCols = selectedPairs rest dfCols := by
          simp [selectedPairs, hmem, hfind]
        simp only [List.foldl_cons, hstep, hsel, ih]
      | some a =>
        have hstep : renameStep dfCols (m, logs) it
            = (insertA m a it.1, logs ++ [renameEntryOf (a, it.1)]) := by
          simp [renameStep, hmem, hfind]
        have hsel : selectedPairs (it :: rest) dfCols
            = (a, it.1) :: selectedPairs rest dfCols := by
          simp [selectedPairs, hmem, hfind]
        rw [List.foldl_cons, hstep, hsel, ih, List.foldl_cons, List.map_cons]
        simp

theorem renamePhase_eq (schema : Schema) (dfCols : List String) :
    renamePhase schema dfCols =
      ((selectedPairs schema dfCols).foldl (fun acc p => insertA acc p.1 p.2) [],
       (selectedPairs schema dfCols).map renameEntryOf) := by
  simpa using renamePhase_go dfCols schema [] []

theorem selectedPairs_mem {schema : Schema} {dfCols : List String} {p : String × String}
    (hp : p ∈ selectedPairs schema dfCols) :
    p.1 ∈ dfCols ∧ p.2 ∉ dfCols ∧ p.2 ∈ schemaKeys schema := by
  rcases List.mem_filterMap.mp hp with ⟨it, hit, heq⟩
  by_cases h : it.1 ∈ dfCols
  · simp [h] at heq
  · cases hfind : findAlias dfCols it.2.aliases with
    | none => rw [if_neg h, hfind] at heq; simp at heq
    | some a =>
      rw [if_neg h, hfind] at heq
      simp only [Option.map_some', Option.some.injEq] at heq
      subst heq
      exact ⟨(findAlias_mem hfind).1, h, List.mem_map.mpr ⟨it, hit, rfl⟩⟩

/-! ### Rename-map lemmas -/

theorem insertA_of_fresh {m : List (String × String)} {k v : String}
    (h : ∀ pr ∈ m, pr.1 ≠ k) : insertA m k v = m ++ [(k, v)] := by
  have hany : m.any (fun pr => pr.1 == k) = false := by
    rw [List.any_eq_false]
    intro pr hpr
    simpa using h pr hpr
  simp [insertA, hany]

theorem foldl_insertA_fresh :
    ∀ (ps m : List (String × String)), (ps.map Prod.fst).Nodup →
    (∀ p ∈ ps, ∀ pr ∈ m, pr.1 ≠ p.1) →
    ps.foldl (fun acc p => insertA acc p.1 p.2) m = m ++ ps := by
  intro ps
  induction ps with
  | nil => intro m _ _; simp
  | cons p rest ih =>
    intro m hnd hfresh
    rw [List.foldl_cons, insertA_of_fresh (fun pr hpr => hfresh p (by simp) pr hpr)]
    rw [ih (m ++ [(p.1, p.2)]) (by simpa using (List.nodup_cons.mp (by simpa using hnd)).2) ?_]
    · simp
    · intro q hq pr hpr
      rcases List.mem_append.mp hpr with hm | hp
      · exact hfresh q (by simp [hq]) pr hm
      · have : pr = (p.1, p.2) := by simpa using hp
        subst this
        have hp1 : p.1 ∉ rest.map Prod.fst := (List.nodup_cons.mp (by simpa using hnd)).1
        intro hcontra
        exact hp1 (List.mem_map.mpr ⟨q, hq, hcontra.symm⟩)

theorem renameMap_eq {schema : Schema} {dfCols : List String}
    (hsel : ((selectedPairs schema dfCols).map Prod.fst).Nodup) :
    (renamePhase schema dfCols).1 = selectedPairs schema dfCols := by
  rw [renamePhase_eq]
  simpa using foldl_insertA_fresh (selectedPairs schema dfCols) [] hsel (by simp)

theorem lookupA_eq_none {m : List (String × String)} {k : String}
    (h : ∀ pr ∈ m, pr.1 ≠ k) : lookupA m k = none := by
  have : m.find? (fun pr => pr.1 == k) = none := by
    rw [List.find?_eq_none]
    intro pr hpr
    simpa using h pr hpr
  simp [lookupA, this]

theorem lookupA_some_mem {m : List (String × String)} {k v : String}
    (h : lookupA m k = some v) : (k, v) ∈ m := by
  simp only [lookupA, Option.map_eq_some'] at h
  obtain ⟨pr, hfind, h2⟩ := h
  have h1 : pr.1 = k := by simpa using List.find?_some hfind
  have := List.mem_of_find?_eq_some hfind
  rwa [show pr = (k, v) from Prod.ext h1 h2] at this

theorem lookupA_isSome_iff {m : List (String × String)} {k : String} :
    (lookupA m k).isSome = true ↔ k ∈ m.map Prod.fst := by
  simp only [lookupA, Option.isSome_map', List.find?_isSome, List.mem_map, beq_iff_eq]

theorem renameCols_columns (df : DFrame) (m : List (String × String)) :
    (df.renameCols m).columns = df.columns.map (fun nm => (lookupA m nm).getD nm) := by
  simp [DFrame.renameCols, DFrame.columns, List.map_map]

/-! ### Casting and filtering lemmas -/

theorem castCol_cols (df : DFrame) (name : String) (t : PDtype) :
    (df.castCol name t).cols
      = df.cols.map (fun pr => (pr.1, if pr.1 = name then castColumn pr.2 t else pr.2)) := by
  unfold DFrame.castCol
  show df.cols.map (fun pr => if pr.1 = name then (pr.1, castColumn pr.2 t) else pr)
      = df.cols.map (fun pr => (pr.1, if pr.1 = name then castColumn pr.2 t else pr.2))
  apply List.map_congr_left
  intro pr _
  by_cases h : pr.1 = name <;> simp [h]

theorem castCol_col? (df : DFrame) (name n : String) (t : PDtype) :
    (df.castCol name t).col? n
      = (df.col? n).map (fun c => if n = name then castColumn c t else c) := by
  unfold DFrame.col?
  rw [castCol_cols,
    find?_map_fst df.cols (fun pr => if pr.1 = name then castColumn pr.2 t else pr.2) n]
  cases hf : df.cols.find? (fun pr => pr.1 == n) with
  | none => simp
  | some pr0 =>
    have h1 : pr0.1 = n := by simpa using List.find?_some hf
    simp [h1]

theorem castCol_columns (df : DFrame) (name : String) (t : PDtype) :
    (df.castCol name t).columns = df.columns := by
  rw [DFrame.columns, castCol_cols]
  simp [DFrame.columns]

theorem filterByCol_col?_all (df : DFrame) (name n : String)
    (p : Option Value → Option Bool) {c : Col} (h : df.col? name = some c) :
    (df.filterByCol name p).col? n
      = (df.col? n).map (fun c₂ =>
          ⟨c₂.dtype, applyMask (c.values.map (fun cell => p cell == some true)) c₂.values⟩) := by
  unfold DFrame.filterByCol
  rw [h]
  show (DFrame.mk (df.cols.map (fun pr =>
    (pr.1, ⟨pr.2.dtype, applyMask (c.values.map (fun cell => p cell == some true))
      pr.2.values⟩)))).col? n = _
  unfold DFrame.col?
  rw [find?_map_fst df.cols (fun pr =>
    (⟨pr.2.dtype, applyMask (c.values.map (fun cell => p cell == some true)) pr.2.values⟩ : Col)) n]
  cases hf : df.cols.find? (fun pr => pr.1 == n) with
  | none => simp
  | some pr0 => simp

theorem applyMask_self (g : Option Value → Bool) (vals : List (Option Value)) :
    applyMask (vals.map g) vals = vals.filter g := by
  induction vals with
  | nil => rfl
  | cons v rest ih =>
    by_cases h : g v <;> simp [applyMask, List.filter_cons, h] at ih ⊢ <;> exact ih

theorem applyMask_length {mask : List Bool} :
    ∀ {vals : List (Option Value)}, mask.length = vals.length →
    (applyMask mask vals).length = mask.countP (fun b => b) := by
  induction mask with
  | nil => intro vals _; rfl
  | cons b rest ih =>
    intro vals h
    cases vals with
    | nil => simp at h
    | cons v vrest =>
      have h' : rest.length = vrest.length := by simpa using h
      by_cases hb : b <;>
        simp [applyMask, List.countP_cons, hb] at ih ⊢ <;> exact ih h'

theorem applyMask_all_false {mask : List Bool} (h : ∀ b ∈ mask, b = false) :
    ∀ (vals : List (Option Value)), applyMask mask vals = [] := by
  induction mask with
  | nil => intro vals; rfl
  | cons b rest ih =>
    intro vals
    cases vals with
    | nil => rfl
    | cons v vrest =>
      have hb : b = false := h b (by simp)
      subst hb
      simpa [applyMask] using ih (fun x hx => h x (by simp [hx])) vrest

theorem filterByCol_height {df : DFrame} {name : String} {c : Col}
    (p : Option Value → Option Bool) (hwf : df.Wf) (h : df.col? name = some c) :
    (df.filterByCol name p).height = c.values.countP (fun cell => p cell == some true) := by
  obtain ⟨pr0, hpr0, _, hc⟩ := col?_mem h
  have hlen_c : c.values.length = df.height := by rw [← hc]; exact hwf pr0 hpr0
  unfold DFrame.filterByCol
  rw [h]
  cases hcols : df.cols with
  | nil => rw [hcols] at hpr0; simp at hpr0
  | cons hd tl =>
    have hlen_hd : hd.2.values.length = df.height := hwf hd (by rw [hcols]; simp)
    show (DFrame.mk ((hd :: tl).map (fun pr =>
      (pr.1, ⟨pr.2.dtype, applyMask (c.values.map (fun cell => p cell == some true))
        pr.2.values⟩)))).height = _
    rw [List.map_cons]
    show (applyMask (c.values.map (fun cell => p cell == some true)) hd.2.values).length = _
    rw [applyMask_length (by simp [hlen_c, hlen_hd])]
    rw [List.countP_map]
    rfl

theorem filterByCol_height_zero {df : DFrame} {name : String} {c : Col}
    (p : Option Value → Option Bool) (h : df.col? name = some c)
    (hall : ∀ cell ∈ c.values, ¬(p cell = some true)) :
    (df.filterByCol name p).height = 0 := by
  have hmask : ∀ b ∈ c.values.map (fun cell => p cell == some true), b = false := by
    intro b hb
    obtain ⟨cell, hcell, rfl⟩ := List.mem_map.mp hb
    simpa using hall cell hcell
  unfold DFrame.filterByCol
  rw [h]
  cases hcols : df.cols with
  | nil => rfl
  | cons hd tl =>
    show (DFrame.mk ((hd :: tl).map (fun pr =>
      (pr.1, ⟨pr.2.dtype, applyMask (c.values.map (fun cell => p cell == some true))
        pr.2.values⟩)))).height = 0
    rw [List.map_cons]
    show (applyMask (c.values.map (fun cell => p cell == some true)) hd.2.values).length = 0
    rw [applyMask_all_false hmask]
    rfl

theorem filterByCol_no_null {df : DFrame} {name : String} {c c' : Col}
    (p : Option Value → Option Bool) (hp : p none = none)
    (h : df.col? name = some c) (h' : (df.filterByCol name p).col? name = some c') :
    ∀ x ∈ c'.values, x ≠ none := by
  rw [filterByCol_col?_all df name name p h, h] at h'
  simp only [Option.map_some', Option.some.injEq] at h'
  subst h'
  show ∀ x ∈ applyMask (c.values.map (fun cell => p cell == some true)) c.values, x ≠ none
  rw [applyMask_self]
  intro x hx
  have := List.of_mem_filter hx
  intro hnone
  subst hnone
  rw [hp] at this
  simp at this

theorem castColumn_nullCount_le (c : Col) (t : PDtype) :
    c.nullCount ≤ (castColumn c t).nullCount := by
  unfold castColumn Col.nullCount
  simp only [List.countP_map]
  apply List.countP_mono_left
  intro cell _ hcell
  have : cell = none := by simpa using hcell
  subst this
  rfl

/-! ### Cast-phase characterization -/

theorem castStep_eq (df : DFrame) (logs : List LogEntry) (it : String × ColProps) :
    castStep (df, logs) it = (castDfOf df it, logs ++ castEntriesOf df it) := by
  unfold castStep castDfOf castEntriesOf
  cases hc : df.col? it.1 with
  | none => simp [hc]
  | some c =>
    simp only [hc]
    cases hts : it.2.type with
    | none => simp [hts]
    | some ts =>
      simp only [hts]
      cases htm : typeMapLookup ts with
      | none => simp [htm]
      | some target =>
        simp only [htm]
        by_cases hdt : c.dtype = target
        · simp [hdt]
        · rw [if_neg hdt, if_neg hdt, if_neg hdt]
          rw [castCol_col? df it.1 it.1 target, hc]
          by_cases hlt : (0 : Int) < ((castColumn c target).nullCount : Int) - (c.nullCount : Int)
          · simp [Option.map_some', hlt]
          · simp [Option.map_some', hlt]

theorem castDfOf_col?_ne {df : DFrame} {it : String × ColProps} {n : String}
    (hne : n ≠ it.1) : (castDfOf df it).col? n = df.col? n := by
  unfold castDfOf
  cases hc : df.col? it.1 with
  | none => rfl
  | some c =>
    simp only [hc]
    cases hts : it.2.type with
    | none => rfl
    | some ts =>
      simp only [hts]
      cases htm : typeMapLookup ts with
      | none => rfl
      | some target =>
        simp only [htm]
        by_cases hdt : c.dtype = target
        · simp [hdt]
        · rw [if_neg hdt]
          rw [castCol_col? df it.1 n target]
          cases df.col? n with
          | none => rfl
          | some c2 => simp [hne]

theorem castDfOf_columns (df : DFrame) (it : String × ColProps) :
    (castDfOf df it).columns = df.columns := by
  unfold castDfOf
  cases hc : df.col? it.1 with
  | none => rfl
  | some c =>
    simp only [hc]
    cases hts : it.2.type with
    | none => rfl
    | some ts =>
      simp only [hts]
      cases htm : typeMapLookup ts with
      | none => rfl
      | some target =>
        simp only [htm]
        by_cases hdt : c.dtype = target
        · simp [hdt]
        · simp [hdt, castCol_columns]

theorem castEntriesOf_column {df : DFrame} {it : String × ColProps} :
    ∀ e ∈ castEntriesOf df it, e.column = it.1 := by
  intro e he
  unfold castEntriesOf at he
  cases hc : df.col? it.1 with
  | none => simp [hc] at he
  | some c =>
    simp only [hc] at he
    cases hts : it.2.type with
    | none => rw [hts] at he; simp at he
    | some ts =>
      rw [hts] at he
      cases htm : typeMapLookup ts with
      | none => simp [htm] at he
      | some target =>
        simp only [htm] at he
        by_cases hdt : c.dtype = target
        · simp [hdt] at he
        · rw [if_neg hdt] at he
          by_cases hlt : (0 : Int) < ((castColumn c target).nullCount : Int) - (c.nullCount : Int)
          · rw [if_pos hlt] at he
            simp only [List.mem_singleton] at he
            rw [he]
          · rw [if_neg hlt] at he
            simp only [List.mem_singleton] at he
            rw [he]

theorem castEntriesOf_congr {df df' : DFrame} {it : String × ColProps}
    (h : df.col? it.1 = df'.col? it.1) : castEntriesOf df it = castEntriesOf df' it := by
  unfold castEntriesOf
  rw [h]

theorem castPhase_skip {col : String} :
    ∀ (schema : Schema) (df : DFrame) (logs : List LogEntry), col ∉ schemaKeys schema →
    ((schema.foldl castStep (df, logs)).2).filter (fun e => e.column == col)
      = logs.filter (fun e => e.column == col) := by
  intro schema
  induction schema with
  | nil => intro df logs _; rfl
  | cons it rest ih =>
    intro df logs h
    have hne : it.1 ≠ col := by
      intro hcontra
      exact h (by rw [schemaKeys_cons, hcontra]; simp)
    have hrest : col ∉ schemaKeys rest := by
      intro hcontra
      exact h (by rw [schemaKeys_cons]; simp [hcontra])
    rw [List.foldl_cons, castStep_eq, ih _ _ hrest, List.filter_append]
    have hnil : (castEntriesOf df it).filter (fun e => e.column == col) = [] := by
      rw [List.filter_eq_nil_iff]
      intro e he
      simp [castEntriesOf_column e he, hne]
    rw [hnil, List.append_nil]

theorem castPhase_filter {col : String} {props : ColProps} {c : Col} :
    ∀ (schema : Schema) (df : DFrame) (logs : List LogEntry),
    (schemaKeys schema).Nodup → (col, props) ∈ schema → df.col? col = some c →
    ((schema.foldl castStep (df, logs)).2).filter (fun e => e.column == col)
      = logs.filter (fun e => e.column == col) ++ castEntriesOf df (col, props) := by
  intro schema
  induction schema with
  | nil => intro df logs _ hmem; simp at hmem
  | cons it rest ih =>
    intro df logs hnd hmem hc
    rcases List.mem_cons.mp hmem with heq | hmem'
    · have hit : it = (col, props) := heq.symm
      subst hit
      have hrest : col ∉ schemaKeys rest := by
        rw [schemaKeys_cons, List.nodup_cons] at hnd
        exact hnd.1
      rw [List.foldl_cons, castStep_eq, castPhase_skip rest _ _ hrest, List.filter_append]
      have hself : (castEntriesOf df (col, props)).filter (fun e => e.column == col)
          = castEntriesOf df (col, props) := by
        rw [List.filter_eq_self]
        intro e he
        simp [castEntriesOf_column e he]
      rw [hself]
    · have hcol_rest : col ∈ schemaKeys rest := List.mem_map.mpr ⟨(col, props), hmem', rfl⟩
      have hne : it.1 ≠ col := by
        rw [schemaKeys_cons, List.nodup_cons] at hnd
        intro hcontra
        exact hnd.1 (hcontra ▸ hcol_rest)
      have hnd' : (schemaKeys rest).Nodup := by
        rw [schemaKeys_cons, List.nodup_cons] at hnd
        exact hnd.2
      have hc' : (castDfOf df it).col? col = some c := by
        rw [castDfOf_col?_ne (Ne.symm hne)]
        exact hc
      rw [List.foldl_cons, castStep_eq, ih _ _ hnd' hmem' hc']
      have hlogs : (logs ++ castEntriesOf df it).filter (fun e => e.column == col)
          = logs.filter (fun e => e.column == col) := by
        rw [List.filter_append]
        have : (castEntriesOf df it).filter (fun e => e.column == col) = [] := by
          rw [List.filter_eq_nil_iff]
          intro e he
          simp [castEntriesOf_column e he, hne]
        rw [this, List.append_nil]
      rw [hlogs]
      have : castEntriesOf (castDfOf df it) (col, props) = castEntriesOf df (col, props) := by
        apply castEntriesOf_congr
        exact castDfOf_col?_ne (Ne.symm hne)
      rw [this]

theorem castPhase_logs_filter {schema : Schema} {df : DFrame} {col : String}
    {props : ColProps} {c : Col}
    (hnd : (schemaKeys schema).Nodup) (hmem : (col, props) ∈ schema)
    (hc : df.col? col = some c) :
    ((castPhase schema df).2).filter (fun e => e.column == col)
      = castEntriesOf df (col, props) := by
  unfold castPhase
  rw [castPhase_filter schema df [] hnd hmem hc]
  rfl

theorem castPhase_columns : ∀ (schema : Schema) (df : DFrame) (logs : List LogEntry),
    (schema.foldl castStep (df, logs)).1.columns = df.columns := by
  intro schema
  induction schema with
  | nil => intro df logs; rfl
  | cons it rest ih =>
    intro df logs
    rw [List.foldl_cons, castStep_eq, ih, castDfOf_columns]

/-! ### Validator characterization -/

theorem validate_go (df : DFrame) : ∀ (schema : Schema) (acc : List Finding),
    schema.foldl (fun a it => a ++ checkColumn df it.1 it.2) acc = acc ++ validate schema df := by
  intro schema
  induction schema with
  | nil => intro acc; simp [validate]
  | cons it rest ih =>
    intro acc
    show rest.foldl _ (acc ++ checkColumn df it.1 it.2) = _
    rw [ih (acc ++ checkColumn df it.1 it.2)]
    show _ = acc ++ rest.foldl _ ([] ++ checkColumn df it.1 it.2)
    rw [List.nil_append, ih (checkColumn df it.1 it.2), List.append_assoc]

theorem validate_cons (df : DFrame) (it : String × ColProps) (rest : Schema) :
    validate (it :: rest) df = checkColumn df it.1 it.2 ++ validate rest df := by
  show rest.foldl _ ([] ++ checkColumn df it.1 it.2) = _
  rw [List.nil_append, validate_go df rest (checkColumn df it.1 it.2)]

theorem typeCheck_mem {colName : String} {ts? : Option String} {dt : PDtype} {e : Finding}
    (he : e ∈ typeCheck colName ts? dt) : e.varName = colName ∧ e.check = "Type" := by
  cases ts? with
  | none => simp [typeCheck] at he
  | some ts =>
    simp only [typeCheck] at he
    cases hd : dtypeSet ts with
    | none => simp only [hd] at he; simp at he
    | some valid =>
      simp only [hd] at he
      by_cases hv : dt ∈ valid
      · rw [if_pos hv] at he; simp at he
      · rw [if_neg hv] at he
        simp only [List.mem_singleton] at he
        rw [he]
        exact ⟨rfl, rfl⟩

theorem rangeCheck_mem {df : DFrame} {colName : String} {rng : Option (Value × Value)}
    {e : Finding} (he : e ∈ rangeCheck df colName rng) :
    e.varName = colName ∧ e.check = "Range" := by
  cases rng with
  | none => simp [rangeCheck] at he
  | some pr =>
    simp only [rangeCheck] at he
    by_cases hh : (df.filterByCol colName (rangePred pr.1 pr.2)).height = 0
    · simp only [hh, if_pos rfl] at he; simp at he
    · rw [if_neg hh] at he
      simp only [List.mem_singleton] at he
      rw [he]
      exact ⟨rfl, rfl⟩

theorem allowedCheck_mem {df : DFrame} {colName : String} {dt : PDtype}
    {lst? : Option (List Value)} {e : Finding} (he : e ∈ allowedCheck df colName dt lst?) :
    e.varName = colName ∧ e.check = "Allowed Values" := by
  cases lst? with
  | none => simp [allowedCheck] at he
  | some lst =>
    simp only [allowedCheck] at he
    by_cases hh : (df.filterByCol colName (allowedPred dt lst)).height = 0
    · simp only [hh, if_pos rfl] at he; simp at he
    · rw [if_neg hh] at he
      simp only [List.mem_singleton] at he
      rw [he]
      exact ⟨rfl, rfl⟩

theorem forbiddenCheck_mem {df : DFrame} {colName : String} {dt : PDtype}
    {lst? : Option (List Value)} {e : Finding} (he : e ∈ forbiddenCheck df colName dt lst?) :
    e.varName = colName ∧ e.check = "Forbidden Values" := by
  cases lst? with
  | none => simp [forbiddenCheck] at he
  | some lst =>
    simp only [forbiddenCheck] at he
    by_cases hh : (df.filterByCol colName (forbiddenPred dt lst)).height = 0
    · simp only [hh, if_pos rfl] at he; simp at he
    · rw [if_neg hh] at he
      simp only [List.mem_singleton] at he
      rw [he]
      exact ⟨rfl, rfl⟩

theorem regexCheck_mem {df : DFrame} {colName : String} {dt : PDtype}
    {rx : Option (String × (String → Bool))} {e : Finding}
    (he : e ∈ regexCheck df colName dt rx) :
    e.varName = colName ∧ e.check = "Regex" := by
  cases rx with
  | none => simp [regexCheck] at he
  | some pr =>
    simp only [regexCheck] at he
    by_cases hdt : dt = PDtype.string
    · rw [if_pos hdt] at he
      by_cases hh : (df.filterByCol colName (regexPred pr.2)).height = 0
      · simp only [hh, if_pos rfl] at he; simp at he
      · rw [if_neg hh] at he
        simp only [List.mem_singleton] at he
        rw [he]
        exact ⟨rfl, rfl⟩
    · rw [if_neg hdt] at he; simp at he

theorem checkColumn_varName {df : DFrame} {colName : String} {props : ColProps} {e : Finding}
    (he : e ∈ checkColumn df colName props) : e.varName = colName := by
  unfold checkColumn at he
  cases hc : df.col? colName with
  | none =>
    rw [hc] at he
    by_cases ho : props.optional
    · rw [if_pos ho] at he; simp at he
    · rw [if_neg ho] at he
      simp only [List.mem_singleton] at he
      rw [he]
  | some c =>
    rw [hc] at he
    rcases List.mem_append.mp he with h4 | h5
    · rcases List.mem_append.mp h4 with h3 | hf
      · rcases List.mem_append.mp h3 with h2 | ha
        · rcases List.mem_append.mp h2 with ht | hr
          · exact (typeCheck_mem ht).1
          · exact (rangeCheck_mem hr).1
        · exact (allowedCheck_mem ha).1
      · exact (forbiddenCheck_mem hf).1
    · exact (regexCheck_mem h5).1

theorem validate_varName_mem {df : DFrame} {e : Finding} :
    ∀ {schema : Schema}, e ∈ validate schema df → e.varName ∈ schemaKeys schema := by
  intro schema
  induction schema with
  | nil => intro he; simp [validate] at he
  | cons it rest ih =>
    intro he
    rw [validate_cons] at he
    rcases List.mem_append.mp he with h1 | h2
    · rw [schemaKeys_cons, checkColumn_varName h1]; simp
    · rw [schemaKeys_cons]; exact List.mem_cons_of_mem _ (ih h2)

theorem validate_filter {df : DFrame} {col : String} {props : ColProps} :
    ∀ {schema : Schema}, (schemaKeys schema).Nodup → (col, props) ∈ schema →
    (validate schema df).filter (fun e => e.varName == col) = checkColumn df col props := by
  intro schema
  induction schema with
  | nil => intro _ hmem; simp at hmem
  | cons it rest ih =>
    intro hnd hmem
    rw [validate_cons, List.filter_append]
    rcases List.mem_cons.mp hmem with heq | hmem'
    · have hit : it = (col, props) := heq.symm
      subst hit
      have hrest : col ∉ schemaKeys rest := by
        rw [schemaKeys_cons, List.nodup_cons] at hnd
        exact hnd.1
      have h1 : (checkColumn df col props).filter (fun e => e.varName == col)
          = checkColumn df col props := by
        rw [List.filter_eq_self]
        intro e he
        simp [checkColumn_varName he]
      have h2 : (validate rest df).filter (fun e => e.varName == col) = [] := by
        rw [List.filter_eq_nil_iff]
        intro e he hP
        have := validate_varName_mem he
        rw [show e.varName = col by simpa using hP] at this
        exact hrest this
      rw [h1, h2, List.append_nil]
    · have hcol_rest : col ∈ schemaKeys rest := List.mem_map.mpr ⟨(col, props), hmem', rfl⟩
      have hne : it.1 ≠ col := by
        rw [schemaKeys_cons, List.nodup_cons] at hnd
        intro hcontra
        exact hnd.1 (hcontra ▸ hcol_rest)
      have hnd' : (schemaKeys rest).Nodup := by
        rw [schemaKeys_cons, List.nodup_cons] at hnd
        exact hnd.2
      have h1 : (checkColumn df it.1 it.2).filter (fun e => e.varName == col) = [] := by
        rw [List.filter_eq_nil_iff]
        intro e he hP
        exact hne (by rw [← checkColumn_varName he]; simpa using hP)
      rw [h1, List.nil_append]
      exact ih hnd' hmem'

/-! ### Null-propagation of the check predicates -/

theorem rangePred_none (low high : Value) : rangePred low high none = none := rfl

theorem inListPred_none (dt : PDtype) (lst : List Value) : inListPred dt lst none = none := by
  unfold inListPred
  split <;> rfl

theorem allowedPred_none (dt : PDtype) (lst : List Value) : allowedPred dt lst none = none := by
  unfold allowedPred
  rw [inListPred_none]
  rfl

theorem forbiddenPred_none (dt : PDtype) (lst : List Value) :
    forbiddenPred dt lst none = none := inListPred_none dt lst

theorem regexPred_none (f : String → Bool) : regexPred f none = none := rfl

/-! ### Claim theorems -/

/-- C3, counterexample: a schema document that parses to a non-mapping
value (for instance a YAML list or null) makes construction fail, but
with an unwrapped attribute error, not with the wrapped schema-load
`ValueError` the claim requires for every structurally invalid document. -/
theorem schema_load_nonmapping_counterexample :
    mkHarmonizer (Except.ok Doc.nonMapping)
      = Except.error (PyErr.attributeError "object has no attribute 'get'") ∧
    isSchemaValueErr (mkHarmonizer (Except.ok Doc.nonMapping)) = false ∧
    isSchemaValueErr (mkValidator (Except.ok Doc.nonMapping)) = false :=
  ⟨rfl, rfl, rfl⟩

/-- C3, amended: constructing the Harmonizer or the Validator from a
missing, unreadable or unparseable schema document (any source whose
load raises) fails with the single wrapped schema-load error carrying
the underlying cause; a document that parses to a non-mapping value
fails construction too, but with an unwrapped attribute error. -/
theorem schema_load_failure_wrapped :
    (∀ e : String,
      mkHarmonizer (Except.error e)
        = Except.error (PyErr.valueError ("Failed to load schema: " ++ e)) ∧
      mkValidator (Except.error e)
        = Except.error (PyErr.valueError ("Failed to load schema: " ++ e))) ∧
    mkHarmonizer (Except.ok Doc.nonMapping)
      = Except.error (PyErr.attributeError "object has no attribute 'get'") ∧
    mkValidator (Except.ok Doc.nonMapping)
      = Except.error (PyErr.attributeError "object has no attribute 'get'") :=
  ⟨fun _ => ⟨rfl, rfl⟩, rfl, rfl⟩

/-- C9: a mapping document without a top-level "schema" key constructs
both classes with an empty schema and no error; with an empty schema,
`harmonize` returns the table unchanged with an empty report and
`validate` returns an empty report. -/
theorem missing_schema_key_empty (kvs : List (String × Schema)) (df : DFrame)
    (h : lookupSchemaField kvs "schema" = none) :
    mkHarmonizer (Except.ok (Doc.mapping kvs)) = Except.ok [] ∧
    mkValidator (Except.ok (Doc.mapping kvs)) = Except.ok [] ∧
    harmonize [] df = (df, []) ∧
    validate [] df = [] := by
  refine ⟨?_, ?_, rfl, rfl⟩
  · show Except.ok ((lookupSchemaField kvs "schema").getD []) = Except.ok []
    rw [h]
    rfl
  · show Except.ok ((lookupSchemaField kvs "schema").getD []) = Except.ok []
    rw [h]
    rfl

/-- C9 witness at a concrete mapping without "schema" and a concrete table. -/
theorem missing_schema_key_empty_witness :
    mkHarmonizer (Except.ok (Doc.mapping [("other", [])])) = Except.ok [] ∧
    mkValidator (Except.ok (Doc.mapping [("other", [])])) = Except.ok [] ∧
    harmonize [] (DFrame.mk [("x", Col.mk PDtype.int64 [some (Value.vInt 1)])])
      = (DFrame.mk [("x", Col.mk PDtype.int64 [some (Value.vInt 1)])], []) ∧
    validate [] (DFrame.mk [("x", Col.mk PDtype.int64 [some (Value.vInt 1)])]) = [] :=
  missing_schema_key_empty [("other", [])]
    (DFrame.mk [("x", Col.mk PDtype.int64 [some (Value.vInt 1)])]) rfl

/-- C8: the example string is built from the unique non-null values of
the column: the first three joined by ", ", with ", ... (+N more)"
appended when more than three exist (N the excess); if the column cannot
be retrieved the string is the literal "N/A" (and the helper is total,
so example generation never aborts validation). -/
theorem example_msg_spec (df : DFrame) (col : String) :
    (df.col? col = none → getExampleMsg df col = "N/A") ∧
    (∀ c : Col, df.col? col = some c →
      (((uniqVals c.values).filterMap id).length ≤ 3 →
        getExampleMsg df col
          = String.intercalate ", " (((uniqVals c.values).filterMap id).map pyStr)) ∧
      (3 < ((uniqVals c.values).filterMap id).length →
        getExampleMsg df col
          = String.intercalate ", " ((((uniqVals c.values).filterMap id).take 3).map pyStr)
            ++ ", ... (+" ++ toString (((uniqVals c.values).filterMap id).length - 3)
            ++ " more)")) := by
  constructor
  · intro h
    unfold getExampleMsg
    rw [h]
  · intro c hc
    constructor
    · intro hlen
      unfold getExampleMsg
      simp only [hc]
      rw [if_neg (by omega), List.take_of_length_le hlen]
    · intro hlen
      unfold getExampleMsg
      simp only [hc]
      rw [if_pos (by omega)]

/-- C8 witness: five unique invalid values give three literals plus the
"+2 more" suffix; a missing column gives "N/A". -/
theorem example_msg_spec_witness :
    getExampleMsg (DFrame.mk [("v", Col.mk PDtype.int64
        [some (Value.vInt 1), some (Value.vInt 2), none, some (Value.vInt 3),
         some (Value.vInt 4), some (Value.vInt 5), some (Value.vInt 1)])]) "v"
      = "1, 2, 3, ... (+2 more)" ∧
    getExampleMsg (DFrame.mk [("v", Col.mk PDtype.int64 [some (Value.vInt 1)])]) "absent"
      = "N/A" := by
  constructor
  · have h := ((example_msg_spec (DFrame.mk [("v", Col.mk PDtype.int64
        [some (Value.vInt 1), some (Value.vInt 2), none, some (Value.vInt 3),
         some (Value.vInt 4), some (Value.vInt 5), some (Value.vInt 1)])]) "v").2
      (Col.mk PDtype.int64
        [some (Value.vInt 1), some (Value.vInt 2), none, some (Value.vInt 3),
         some (Value.vInt 4), some (Value.vInt 5), some (Value.vInt 1)]) rfl).2 (by decide)
    rw [h]
    decide
  · exact (example_msg_spec (DFrame.mk [("v", Col.mk PDtype.int64 [some (Value.vInt 1)])])
      "absent").1 rfl

/-- C7: a schema column absent from the table yields, when not optional,
exactly one Existence finding ("Column not found", examples "N/A") and
no other finding for that column in the whole run; when optional, it
yields no finding for that column at all. -/
theorem existence_finding_short_circuit (schema : Schema) (df : DFrame) (col : String)
    (props : ColProps) (hnd : (schemaKeys schema).Nodup) (hmem : (col, props) ∈ schema)
    (habs : col ∉ df.columns) :
    (props.optional = false →
      (validate schema df).filter (fun e => e.varName == col)
        = [⟨col, "Existence", "Column not found", "N/A"⟩]) ∧
    (props.optional = true →
      (validate schema df).filter (fun e => e.varName == col) = []) := by
  have hc : df.col? col = none := col?_eq_none_iff.mpr habs
  rw [validate_filter hnd hmem]
  unfold checkColumn
  rw [hc]
  constructor
  · intro ho
    simp [ho]
  · intro ho
    simp [ho]

/-- C7 witness: concrete schema with one mandatory and one optional
column, both absent from a one-column table. -/
theorem existence_finding_short_circuit_witness :
    (validate [("a", ({ type := some "integer" } : ColProps)),
               ("b", ({ optional := true } : ColProps))]
      (DFrame.mk [("x", Col.mk PDtype.int64 [some (Value.vInt 1)])])).filter
        (fun e => e.varName == "a")
      = [⟨"a", "Existence", "Column not found", "N/A"⟩] ∧
    (validate [("a", ({ type := some "integer" } : ColProps)),
               ("b", ({ optional := true } : ColProps))]
      (DFrame.mk [("x", Col.mk PDtype.int64 [some (Value.vInt 1)])])).filter
        (fun e => e.varName == "b")
      = [] := by
  constructor
  · exact (existence_finding_short_circuit
      [("a", { type := some "integer" }), ("b", { optional := true })]
      (DFrame.mk [("x", Col.mk PDtype.int64 [some (Value.vInt 1)])]) "a"
      { type := some "integer" } (by decide) (by simp) (by decide)).1 rfl
  · exact (existence_finding_short_circuit
      [("a", { type := some "integer" }), ("b", { optional := true })]
      (DFrame.mk [("x", Col.mk PDtype.int64 [some (Value.vInt 1)])]) "b"
      { optional := true } (by decide) (by simp) (by decide)).2 rfl

theorem filterByCol_height_no_null {df : DFrame} {col : String} {c : Col}
    (p : Option Value → Option Bool) (hp : p none = none)
    (hwf : df.Wf) (hc : df.col? col = some c) :
    (df.filterByCol col p).height
      = c.values.countP (fun cell => cell.isSome && (p cell == some true)) := by
  rw [filterByCol_height p hwf hc]
  apply List.countP_congr
  intro cell _
  cases cell with
  | none => simp [hp]
  | some v => simp

theorem regexPred_some_true {f : String → Bool} {cell : Option Value} :
    regexPred f cell = some true ↔ ∃ s, cell = some (Value.vStr s) ∧ f s = false := by
  cases cell with
  | none => simp [regexPred]
  | some v => cases v <;> simp [regexPred]

/-- C10: for the Range, Allowed Values, Forbidden Values and Regex checks,
a null cell of the checked column is never counted among the invalid
rows — each check's invalid-row count is a count over non-null cells
only; in particular a present, all-null column can produce at most a
Type finding. -/
theorem null_rows_not_counted (schema : Schema) (df : DFrame) (col : String)
    (props : ColProps) (c : Col) (hnd : (schemaKeys schema).Nodup)
    (hmem : (col, props) ∈ schema) (hc : df.col? col = some c) (hwf : df.Wf) :
    (∀ low high : Value,
      (df.filterByCol col (rangePred low high)).height
        = c.values.countP (fun cell =>
            cell.isSome && (rangePred low high cell == some true))) ∧
    (∀ lst : List Value,
      (df.filterByCol col (allowedPred c.dtype lst)).height
        = c.values.countP (fun cell =>
            cell.isSome && (allowedPred c.dtype lst cell == some true))) ∧
    (∀ lst : List Value,
      (df.filterByCol col (forbiddenPred c.dtype lst)).height
        = c.values.countP (fun cell =>
            cell.isSome && (forbiddenPred c.dtype lst cell == some true))) ∧
    (∀ f : String → Bool,
      (df.filterByCol col (regexPred f)).height
        = c.values.countP (fun cell => cell.isSome && (regexPred f cell == some true))) ∧
    ((∀ cell ∈ c.values, cell = none) →
      ∀ e ∈ validate schema df, e.varName = col → e.check = "Type") := by
  refine ⟨fun low high => filterByCol_height_no_null _ (rangePred_none low high) hwf hc,
    fun lst => filterByCol_height_no_null _ (allowedPred_none c.dtype lst) hwf hc,
    fun lst => filterByCol_height_no_null _ (forbiddenPred_none c.dtype lst) hwf hc,
    fun f => filterByCol_height_no_null _ (regexPred_none f) hwf hc,
    ?_⟩
  intro hall e he hv
  have hmemf : e ∈ (validate schema df).filter (fun e => e.varName == col) :=
    List.mem_filter.mpr ⟨he, by simp [hv]⟩
  rw [validate_filter hnd hmem] at hmemf
  unfold checkColumn at hmemf
  simp only [hc] at hmemf
  have hzero : ∀ (p : Option Value → Option Bool), p none = none →
      (df.filterByCol col p).height = 0 := by
    intro p hp
    apply filterByCol_height_zero p hc
    intro cell hcell
    rw [hall cell hcell, hp]
    simp
  have hrange : rangeCheck df col props.range = [] := by
    cases hr : props.range with
    | none => rfl
    | some pr =>
      simp only [rangeCheck]
      rw [if_pos (hzero _ (rangePred_none pr.1 pr.2))]
  have hallow : allowedCheck df col c.dtype props.allowed_value = [] := by
    cases hr : props.allowed_value with
    | none => rfl
    | some lst =>
      simp only [allowedCheck]
      rw [if_pos (hzero _ (allowedPred_none c.dtype lst))]
  have hforb : forbiddenCheck df col c.dtype props.not_allowed_value = [] := by
    cases hr : props.not_allowed_value with
    | none => rfl
    | some lst =>
      simp only [forbiddenCheck]
      rw [if_pos (hzero _ (forbiddenPred_none c.dtype lst))]
  have hregex : regexCheck df col c.dtype props.regex = [] := by
    cases hr : props.regex with
    | none => rfl
    | some pr =>
      simp only [regexCheck]
      by_cases hdt : c.dtype = PDtype.string
      · rw [if_pos hdt, if_pos (hzero _ (regexPred_none pr.2))]
      · rw [if_neg hdt]
  rw [hrange, hallow, hforb, hregex] at hmemf
  simp only [List.append_nil] at hmemf
  exact (typeCheck_mem hmemf).2

/-- Witness data for the all-null-column scenario: an integer column of
two nulls with range, allow, deny and regex rules declared. -/
def wNullProps : ColProps :=
  { type := some "integer", range := some (Value.vInt 0, Value.vInt 1),
    allowed_value := some [Value.vInt 5], not_allowed_value := some [Value.vInt 0],
    regex := some ("^A", fun s => s == "A") }

def wNullSchema : Schema := [("x", wNullProps)]

def wNullDf : DFrame := DFrame.mk [("x", Col.mk PDtype.int64 [none, none])]

/-- C10 witness: an all-null integer column with range, allow, deny and
regex rules declared produces no finding from those four checks; the
range check's invalid-row count is a count over non-null cells only. -/
theorem null_rows_not_counted_witness :
    (wNullDf.filterByCol "x" (rangePred (Value.vInt 0) (Value.vInt 1))).height
      = (Col.mk PDtype.int64 [none, none]).values.countP (fun cell =>
          cell.isSome && (rangePred (Value.vInt 0) (Value.vInt 1) cell == some true)) ∧
    (∀ e ∈ validate wNullSchema wNullDf, e.varName = "x" → e.check = "Type") := by
  have h := null_rows_not_counted wNullSchema wNullDf "x" wNullProps
    (Col.mk PDtype.int64 [none, none]) (by decide) (by simp [wNullSchema]) rfl
    (by unfold DFrame.Wf; decide)
  exact ⟨h.1 (Value.vInt 0) (Value.vInt 1), h.2.2.2.2 (by decide)⟩

theorem filter_var_check (l : List Finding) (col tag : String) :
    l.filter (fun e => e.varName == col && e.check == tag)
      = (l.filter (fun e => e.varName == col)).filter (fun e => e.check == tag) := by
  rw [List.filter_filter]
  apply List.filter_congr
  intro e _
  exact Bool.and_comm _ _

theorem checkColumn_filter_regex {df : DFrame} {col : String} {props : ColProps} {c : Col}
    (hc : df.col? col = some c) :
    (checkColumn df col props).filter (fun e => e.check == "Regex")
      = regexCheck df col c.dtype props.regex := by
  unfold checkColumn
  simp only [hc]
  rw [List.filter_append, List.filter_append, List.filter_append, List.filter_append]
  have h1 : (typeCheck col props.type c.dtype).filter (fun e => e.check == "Regex") = [] := by
    rw [List.filter_eq_nil_iff]
    intro e he hP
    rw [(typeCheck_mem he).2] at hP
    exact absurd hP (by decide)
  have h2 : (rangeCheck df col props.range).filter (fun e => e.check == "Regex") = [] := by
    rw [List.filter_eq_nil_iff]
    intro e he hP
    rw [(rangeCheck_mem he).2] at hP
    exact absurd hP (by decide)
  have h3 : (allowedCheck df col c.dtype props.allowed_value).filter
      (fun e => e.check == "Regex") = [] := by
    rw [List.filter_eq_nil_iff]
    intro e he hP
    rw [(allowedCheck_mem he).2] at hP
    exact absurd hP (by decide)
  have h4 : (forbiddenCheck df col c.dtype props.not_allowed_value).filter
      (fun e => e.check == "Regex") = [] := by
    rw [List.filter_eq_nil_iff]
    intro e he hP
    rw [(forbiddenCheck_mem he).2] at hP
    exact absurd hP (by decide)
  have h5 : (regexCheck df col c.dtype props.regex).filter (fun e => e.check == "Regex")
      = regexCheck df col c.dtype props.regex := by
    rw [List.filter_eq_self]
    intro e he
    rw [(regexCheck_mem he).2]
    rfl
  rw [h1, h2, h3, h4, h5]
  rfl

/-- C2: a Regex finding for a column can only arise when the column is
present with physical type `pl.String` (so for any non-textual dtype the
check is skipped and never produces a finding, whatever the pattern);
when it does run (plain-String column), it emits exactly the one finding
carrying the invalid-row count and examples precisely when at least one
row holds a non-null string that fails the pattern. -/
theorem regex_check_textual_only (schema : Schema) (df : DFrame) (col : String)
    (props : ColProps) (pat : String) (f : String → Bool)
    (hnd : (schemaKeys schema).Nodup) (hmem : (col, props) ∈ schema)
    (hrx : props.regex = some (pat, f)) (hwf : df.Wf) :
    (col ∉ df.columns →
      (validate schema df).filter (fun e => e.varName == col && e.check == "Regex") = []) ∧
    (∀ c : Col, df.col? col = some c → c.dtype ≠ PDtype.string →
      (validate schema df).filter (fun e => e.varName == col && e.check == "Regex") = []) ∧
    (∀ c : Col, df.col? col = some c → c.dtype = PDtype.string →
      ((validate schema df).filter (fun e => e.varName == col && e.check == "Regex")
        = (if (df.filterByCol col (regexPred f)).height = 0 then []
           else [⟨col, "Regex",
             toString (df.filterByCol col (regexPred f)).height
               ++ " rows mismatch pattern '" ++ pat ++ "'",
             getExampleMsg (df.filterByCol col (regexPred f)) col⟩])) ∧
      ((df.filterByCol col (regexPred f)).height ≠ 0
        ↔ ∃ s : String, some (Value.vStr s) ∈ c.values ∧ f s = false)) := by
  refine ⟨?_, ?_, ?_⟩
  · intro habs
    rw [filter_var_check, validate_filter hnd hmem]
    unfold checkColumn
    rw [col?_eq_none_iff.mpr habs]
    by_cases ho : props.optional
    · simp [ho]
    · simp [ho]
  · intro c hc hdt
    rw [filter_var_check, validate_filter hnd hmem, checkColumn_filter_regex hc, hrx]
    simp only [regexCheck]
    rw [if_neg hdt]
  · intro c hc hdt
    constructor
    · rw [filter_var_check, validate_filter hnd hmem, checkColumn_filter_regex hc, hrx]
      simp only [regexCheck]
      rw [if_pos hdt]
    · rw [filterByCol_height (regexPred f) hwf hc, ← Nat.pos_iff_ne_zero,
        List.countP_pos_iff]
      constructor
      · rintro ⟨cell, hcell, hpred⟩
        obtain ⟨s, rfl, hfs⟩ := regexPred_some_true.mp (by simpa using hpred)
        exact ⟨s, hcell, hfs⟩
      · rintro ⟨s, hmem', hfs⟩
        refine ⟨some (Value.vStr s), hmem', ?_⟩
        simp [regexPred, hfs]

def wRegexProps : ColProps := { regex := some ("A1", fun s => s == "A1") }

def wRegexSchema : Schema := [("n", wRegexProps)]

def wRegexDfInt : DFrame := DFrame.mk [("n", Col.mk PDtype.int64 [some (Value.vInt 1)])]

def wRegexDfStr : DFrame := DFrame.mk
  [("n", Col.mk PDtype.string [some (Value.vStr "A1"), some (Value.vStr "B2"), none])]

/-- C2 witness: an integer column with a declared regex yields no Regex
finding; a String column with one mismatching row yields exactly the one
finding with its count and example. -/
theorem regex_check_textual_only_witness :
    (validate wRegexSchema wRegexDfInt).filter
        (fun e => e.varName == "n" && e.check == "Regex") = [] ∧
    (validate wRegexSchema wRegexDfStr).filter
        (fun e => e.varName == "n" && e.check == "Regex")
      = [⟨"n", "Regex", "1 rows mismatch pattern 'A1'", "B2"⟩] := by
  constructor
  · exact (regex_check_textual_only wRegexSchema wRegexDfInt "n" wRegexProps "A1"
      (fun s => s == "A1") (by decide) (by simp [wRegexSchema]) rfl
      (by unfold DFrame.Wf; decide)).2.1
      (Col.mk PDtype.int64 [some (Value.vInt 1)]) rfl (by decide)
  · have h := (regex_check_textual_only wRegexSchema wRegexDfStr "n" wRegexProps "A1"
      (fun s => s == "A1") (by decide) (by simp [wRegexSchema]) rfl
      (by unfold DFrame.Wf; decide)).2.2
      (Col.mk PDtype.string [some (Value.vStr "A1"), some (Value.vStr "B2"), none]) rfl rfl
    rw [h.1]
    decide

theorem checkColumn_filter_allowed {df : DFrame} {col : String} {props : ColProps} {c : Col}
    (hc : df.col? col = some c) :
    (checkColumn df col props).filter (fun e => e.check == "Allowed Values")
      = allowedCheck df col c.dtype props.allowed_value := by
  unfold checkColumn
  simp only [hc]
  rw [List.filter_append, List.filter_append, List.filter_append, List.filter_append]
  have h1 : (typeCheck col props.type c.dtype).filter
      (fun e => e.check == "Allowed Values") = [] := by
    rw [List.filter_eq_nil_iff]
    intro e he hP
    rw [(typeCheck_mem he).2] at hP
    exact absurd hP (by decide)
  have h2 : (rangeCheck df col props.range).filter
      (fun e => e.check == "Allowed Values") = [] := by
    rw [List.filter_eq_nil_iff]
    intro e he hP
    rw [(rangeCheck_mem he).2] at hP
    exact absurd hP (by decide)
  have h3 : (allowedCheck df col c.dtype props.allowed_value).filter
      (fun e => e.check == "Allowed Values")
      = allowedCheck df col c.dtype props.allowed_value := by
    rw [List.filter_eq_self]
    intro e he
    rw [(allowedCheck_mem he).2]
    rfl
  have h4 : (forbiddenCheck df col c.dtype props.not_allowed_value).filter
      (fun e => e.check == "Allowed Values") = [] := by
    rw [List.filter_eq_nil_iff]
    intro e he hP
    rw [(forbiddenCheck_mem he).2] at hP
    exact absurd hP (by decide)
  have h5 : (regexCheck df col c.dtype props.regex).filter
      (fun e => e.check == "Allowed Values") = [] := by
    rw [List.filter_eq_nil_iff]
    intro e he hP
    rw [(regexCheck_mem he).2] at hP
    exact absurd hP (by decide)
  rw [h1, h2, h3, h4, h5]
  simp

theorem checkColumn_filter_forbidden {df : DFrame} {col : String} {props : ColProps} {c : Col}
    (hc : df.col? col = some c) :
    (checkColumn df col props).filter (fun e => e.check == "Forbidden Values")
      = forbiddenCheck df col c.dtype props.not_allowed_value := by
  unfold checkColumn
  simp only [hc]
  rw [List.filter_append, List.filter_append, List.filter_append, List.filter_append]
  have h1 : (typeCheck col props.type c.dtype).filter
      (fun e => e.check == "Forbidden Values") = [] := by
    rw [List.filter_eq_nil_iff]
    intro e he hP
    rw [(typeCheck_mem he).2] at hP
    exact absurd hP (by decide)
  have h2 : (rangeCheck df col props.range).filter
      (fun e => e.check == "Forbidden Values") = [] := by
    rw [List.filter_eq_nil_iff]
    intro e he hP
    rw [(rangeCheck_mem he).2] at hP
    exact absurd hP (by decide)
  have h3 : (allowedCheck df col c.dtype props.allowed_value).filter
      (fun e => e.check == "Forbidden Values") = [] := by
    rw [List.filter_eq_nil_iff]
    intro e he hP
    rw [(allowedCheck_mem he).2] at hP
    exact absurd hP (by decide)
  have h4 : (forbiddenCheck df col c.dtype props.not_allowed_value).filter
      (fun e => e.check == "Forbidden Values")
      = forbiddenCheck df col c.dtype props.not_allowed_value := by
    rw [List.filter_eq_self]
    intro e he
    rw [(forbiddenCheck_mem he).2]
    rfl
  have h5 : (regexCheck df col c.dtype props.regex).filter
      (fun e => e.check == "Forbidden Values") = [] := by
    rw [List.filter_eq_nil_iff]
    intro e he hP
    rw [(regexCheck_mem he).2] at hP
    exact absurd hP (by decide)
  rw [h1, h2, h3, h4, h5]
  simp

theorem strListTrigger_iff {lst : List Value} {dt : PDtype} :
    strListTrigger lst dt = true ↔ (∃ x ∈ lst, isStrLit x = true) ∧ dt ≠ PDtype.string := by
  simp [strListTrigger, List.any_eq_true]

theorem castVal_string (v : Value) :
    castVal v PDtype.string = some (Value.vStr (plStr v)) := rfl

theorem inListPred_some_coerced {dt : PDtype} {lst : List Value} (v : Value)
    (h : strListTrigger lst dt = true) :
    inListPred dt lst (some v) = some (memIn PDtype.string (Value.vStr (plStr v)) lst) := by
  unfold inListPred
  rw [if_pos h]
  rfl

theorem inListPred_some_native {dt : PDtype} {lst : List Value} (v : Value)
    (h : ¬ strListTrigger lst dt = true) :
    inListPred dt lst (some v) = some (memIn dt v lst) := by
  unfold inListPred
  rw [if_neg h]
  rfl

/-- C4: for both the allow-list and the deny-list check, the column's
values are rendered to text for the membership comparison exactly when
the list holds at least one text literal and the column's dtype is not
already `pl.String` (otherwise the native values are compared); and when
both lists are declared the two checks run independently, each emitting
its own finding precisely when its own invalid-row set is non-empty. -/
theorem value_list_checks (schema : Schema) (df : DFrame) (col : String)
    (props : ColProps) (c : Col) (al nal : List Value)
    (hnd : (schemaKeys schema).Nodup) (hmem : (col, props) ∈ schema)
    (hc : df.col? col = some c) (hal : props.allowed_value = some al)
    (hnal : props.not_allowed_value = some nal) :
    (∀ v : Value, ((∃ x ∈ al, isStrLit x = true) ∧ c.dtype ≠ PDtype.string) →
      allowedPred c.dtype al (some v)
        = some (!(memIn PDtype.string (Value.vStr (plStr v)) al))) ∧
    (∀ v : Value, ¬((∃ x ∈ al, isStrLit x = true) ∧ c.dtype ≠ PDtype.string) →
      allowedPred c.dtype al (some v) = some (!(memIn c.dtype v al))) ∧
    (∀ v : Value, ((∃ x ∈ nal, isStrLit x = true) ∧ c.dtype ≠ PDtype.string) →
      forbiddenPred c.dtype nal (some v)
        = some (memIn PDtype.string (Value.vStr (plStr v)) nal)) ∧
    (∀ v : Value, ¬((∃ x ∈ nal, isStrLit x = true) ∧ c.dtype ≠ PDtype.string) →
      forbiddenPred c.dtype nal (some v) = some (memIn c.dtype v nal)) ∧
    ((∃ e ∈ validate schema df, e.varName = col ∧ e.check = "Allowed Values")
      ↔ (df.filterByCol col (allowedPred c.dtype al)).height ≠ 0) ∧
    ((∃ e ∈ validate schema df, e.varName = col ∧ e.check = "Forbidden Values")
      ↔ (df.filterByCol col (forbiddenPred c.dtype nal)).height ≠ 0) := by
  refine ⟨?_, ?_, ?_, ?_, ?_, ?_⟩
  · intro v hv
    unfold allowedPred
    rw [inListPred_some_coerced v (strListTrigger_iff.mpr hv)]
    rfl
  · intro v hv
    unfold allowedPred
    rw [inListPred_some_native v (fun hcontra => hv (strListTrigger_iff.mp hcontra))]
    rfl
  · intro v hv
    unfold forbiddenPred
    rw [inListPred_some_coerced v (strListTrigger_iff.mpr hv)]
  · intro v hv
    unfold forbiddenPred
    rw [inListPred_some_native v (fun hcontra => hv (strListTrigger_iff.mp hcontra))]
  · have hfa : (validate schema df).filter
        (fun e => e.varName == col && e.check == "Allowed Values")
        = allowedCheck df col c.dtype props.allowed_value := by
      rw [filter_var_check, validate_filter hnd hmem, checkColumn_filter_allowed hc]
    rw [hal] at hfa
    simp only [allowedCheck] at hfa
    constructor
    · rintro ⟨e, he, hv, hk⟩
      have hin : e ∈ (validate schema df).filter
          (fun e => e.varName == col && e.check == "Allowed Values") :=
        List.mem_filter.mpr ⟨he, by simp [hv, hk]⟩
      rw [hfa] at hin
      by_cases hh : (df.filterByCol col (allowedPred c.dtype al)).height = 0
      · rw [if_pos hh] at hin
        simp at hin
      · exact hh
    · intro hh
      rw [if_neg hh] at hfa
      have hin := List.mem_filter.mp (by rw [hfa]; exact List.mem_singleton_self _)
      exact ⟨_, hin.1, rfl, rfl⟩
  · have hff : (validate schema df).filter
        (fun e => e.varName == col && e.check == "Forbidden Values")
        = forbiddenCheck df col c.dtype props.not_allowed_value := by
      rw [filter_var_check, validate_filter hnd hmem, checkColumn_filter_forbidden hc]
    rw [hnal] at hff
    simp only [forbiddenCheck] at hff
    constructor
    · rintro ⟨e, he, hv, hk⟩
      have hin : e ∈ (validate schema df).filter
          (fun e => e.varName == col && e.check == "Forbidden Values") :=
        List.mem_filter.mpr ⟨he, by simp [hv, hk]⟩
      rw [hff] at hin
      by_cases hh : (df.filterByCol col (forbiddenPred c.dtype nal)).height = 0
      · rw [if_pos hh] at hin
        simp at hin
      · exact hh
    · intro hh
      rw [if_neg hh] at hff
      have hin := List.mem_filter.mp (by rw [hff]; exact List.mem_singleton_self _)
      exact ⟨_, hin.1, rfl, rfl⟩

def wValProps : ColProps :=
  { allowed_value := some [Value.vStr "a", Value.vInt 1],
    not_allowed_value := some [Value.vInt 2] }

def wValSchema : Schema := [("x", wValProps)]

def wValDf : DFrame :=
  DFrame.mk [("x", Col.mk PDtype.int64 [some (Value.vInt 1), some (Value.vInt 2), none])]

/-- C4 witness: a mixed allow-list on an integer column triggers the
text coercion, and with both lists declared each check emits its own
finding on the same run. -/
theorem value_list_checks_witness :
    allowedPred PDtype.int64 [Value.vStr "a", Value.vInt 1] (some (Value.vInt 2))
      = some true ∧
    (∃ e ∈ validate wValSchema wValDf, e.varName = "x" ∧ e.check = "Allowed Values") ∧
    (∃ e ∈ validate wValSchema wValDf, e.varName = "x" ∧ e.check = "Forbidden Values") := by
  have h := value_list_checks wValSchema wValDf "x" wValProps
    (Col.mk PDtype.int64 [some (Value.vInt 1), some (Value.vInt 2), none])
    [Value.vStr "a", Value.vInt 1] [Value.vInt 2]
    (by decide) (by simp [wValSchema]) rfl rfl rfl
  refine ⟨?_, h.2.2.2.2.1.mpr (by decide), h.2.2.2.2.2.mpr (by decide)⟩
  rw [h.1 (Value.vInt 2) ⟨⟨Value.vStr "a", by simp, rfl⟩, by decide⟩]
  decide

/-! ### Alias selection (C6) -/

theorem selectedPairs_filter {col : String} {props : ColProps} {dfCols : List String} :
    ∀ {schema : Schema}, (schemaKeys schema).Nodup → (col, props) ∈ schema →
    (selectedPairs schema dfCols).filter (fun p => p.2 == col)
      = (if col ∈ dfCols then []
         else match findAlias dfCols props.aliases with
              | none => []
              | some a => [(a, col)]) := by
  intro schema
  induction schema with
  | nil => intro _ h; simp at h
  | cons it rest ih =>
    intro hnd hmem
    rw [schemaKeys_cons, List.nodup_cons] at hnd
    rcases List.mem_cons.mp hmem with heq | hmem'
    · have hit : it = (col, props) := heq.symm
      subst hit
      have hrestnil : (selectedPairs rest dfCols).filter (fun p => p.2 == col) = [] := by
        rw [List.filter_eq_nil_iff]
        intro p hp hP
        have hk := (selectedPairs_mem hp).2.2
        rw [show p.2 = col by simpa using hP] at hk
        exact hnd.1 hk
      by_cases hcol : col ∈ dfCols
      · have hs : selectedPairs ((col, props) :: rest) dfCols = selectedPairs rest dfCols := by
          simp [selectedPairs, hcol]
        rw [hs, hrestnil, if_pos hcol]
      · cases hfind : findAlias dfCols props.aliases with
        | none =>
          have hs : selectedPairs ((col, props) :: rest) dfCols
              = selectedPairs rest dfCols := by
            simp [selectedPairs, hcol, hfind]
          rw [hs, hrestnil, if_neg hcol]
        | some a =>
          have hs : selectedPairs ((col, props) :: rest) dfCols
              = (a, col) :: selectedPairs rest dfCols := by
            simp [selectedPairs, hcol, hfind]
          rw [hs, if_neg hcol, List.filter_cons]
          simp [hrestnil]
    · have hcol_rest : col ∈ schemaKeys rest := List.mem_map.mpr ⟨(col, props), hmem', rfl⟩
      have hne : it.1 ≠ col := fun hcontra => hnd.1 (hcontra ▸ hcol_rest)
      have hstep : (selectedPairs (it :: rest) dfCols).filter (fun p => p.2 == col)
          = (selectedPairs rest dfCols).filter (fun p => p.2 == col) := by
        by_cases hin : it.1 ∈ dfCols
        · have hs : selectedPairs (it :: rest) dfCols = selectedPairs rest dfCols := by
            simp [selectedPairs, hin]
          rw [hs]
        · cases hfind : findAlias dfCols it.2.aliases with
          | none =>
            have hs : selectedPairs (it :: rest) dfCols = selectedPairs rest dfCols := by
              simp [selectedPairs, hin, hfind]
            rw [hs]
          | some a =>
            have hs : selectedPairs (it :: rest) dfCols
                = (a, it.1) :: selectedPairs rest dfCols := by
              simp [selectedPairs, hin, hfind]
            rw [hs, List.filter_cons]
            simp [hne]
      rw [hstep]
      exact ih hnd.2 hmem'

theorem renameEntryOf_column (p : String × String) : (renameEntryOf p).column = p.2 := rfl

theorem renameLogs_filter (schema : Schema) (dfCols : List String) (col : String) :
    ((renamePhase schema dfCols).2).filter (fun e => e.column == col)
      = ((selectedPairs schema dfCols).filter (fun p => p.2 == col)).map renameEntryOf := by
  rw [renamePhase_eq]
  rw [List.filter_map]
  rfl

/-- C6: alias resolution per canonical column — if the canonical name is
in the table no rename is recorded for it even when an alias is present;
if it is absent, the first present alias in declared order is the one
selected and logged (none, when no alias is present); in every case at
most one Rename entry is ever logged for a canonical column per run. -/
theorem alias_resolution_first_match (schema : Schema) (df : DFrame) (col : String)
    (props : ColProps) (hnd : (schemaKeys schema).Nodup) (hmem : (col, props) ∈ schema) :
    (col ∈ df.columns →
      ((renamePhase schema df.columns).2).filter (fun e => e.column == col) = []) ∧
    (col ∉ df.columns →
      (∀ pre a post, props.aliases = pre ++ a :: post → a ∈ df.columns →
          (∀ b ∈ pre, b ∉ df.columns) →
        ((renamePhase schema df.columns).2).filter (fun e => e.column == col)
          = [⟨"Rename", col, "Renamed from '" ++ a ++ "'"⟩]) ∧
      ((∀ a ∈ props.aliases, a ∉ df.columns) →
        ((renamePhase schema df.columns).2).filter (fun e => e.column == col) = [])) ∧
    ((renamePhase schema df.columns).2).countP (fun e => e.column == col) ≤ 1 := by
  have hfilter := renameLogs_filter schema df.columns col
  rw [selectedPairs_filter hnd hmem] at hfilter
  refine ⟨?_, ?_, ?_⟩
  · intro hcol
    rw [hfilter, if_pos hcol]
    rfl
  · intro habs
    constructor
    · intro pre a post haliases ha hpre
      rw [hfilter, if_neg habs, haliases, findAlias_first ha hpre]
      rfl
    · intro hnone
      rw [hfilter, if_neg habs, findAlias_none hnone]
      rfl
  · rw [List.countP_eq_length_filter, hfilter]
    by_cases hcol : col ∈ df.columns
    · rw [if_pos hcol]
      simp
    · rw [if_neg hcol]
      cases findAlias df.columns props.aliases <;> simp

def wAliasProps : ColProps := { aliases := ["a", "b"] }

def wAliasSchema : Schema := [("c", wAliasProps)]

def wAliasDf : DFrame := DFrame.mk
  [("a", Col.mk PDtype.int64 [some (Value.vInt 1)]),
   ("b", Col.mk PDtype.int64 [some (Value.vInt 2)])]

def wAliasDfCanon : DFrame := DFrame.mk
  [("c", Col.mk PDtype.int64 [some (Value.vInt 1)]),
   ("a", Col.mk PDtype.int64 [some (Value.vInt 2)])]

/-- C6 witness: with aliases `[a, b]` and a table containing both but no
canonical column, only `a` is selected and logged; with the canonical
column present, nothing is logged even though an alias is present. -/
theorem alias_resolution_first_match_witness :
    ((renamePhase wAliasSchema wAliasDf.columns).2).filter (fun e => e.column == "c")
      = [⟨"Rename", "c", "Renamed from 'a'"⟩] ∧
    ((renamePhase wAliasSchema wAliasDfCanon.columns).2).filter
        (fun e => e.column == "c") = [] := by
  constructor
  · exact ((alias_resolution_first_match wAliasSchema wAliasDf "c" wAliasProps (by decide)
      (by simp [wAliasSchema])).2.1 (by decide)).1 [] "a" ["b"] rfl (by decide) (by simp)
  · exact (alias_resolution_first_match wAliasSchema wAliasDfCanon "c" wAliasProps (by decide)
      (by simp [wAliasSchema])).1 (by decide)

/-! ### Cast logging (C5) -/

def cexCastSchema : Schema := [("c", ({ type := some "integer" } : ColProps))]

def cexCastDf : DFrame := DFrame.mk [("c", Col.mk PDtype.int8 [some (Value.vInt 1)])]

/-- C5, counterexample: casting an Int8 column under schema type
"integer" logs a Cast Success whose details read "Cast from Int8 to
integer" — naming the schema's type string, not the target physical type
name "Int64" the claim requires. -/
theorem cast_success_detail_counterexample :
    (castPhase cexCastSchema cexCastDf).2
      = [⟨"Cast Success", "c", "Cast from Int8 to integer"⟩] ∧
    "Cast from Int8 to integer"
      ≠ "Cast from " ++ PDtype.render PDtype.int8 ++ " to " ++ PDtype.render PDtype.int64 :=
  ⟨by decide, by decide⟩

/-- C5, amended: for a schema column present in the table whose declared
type maps to a known target dtype — equal dtype gives no cast log entry
for that column; differing dtype gives exactly one entry, Cast Fail with
the newly-failed row count (post-cast null count minus pre-cast null
count, which can never be negative) when that difference is positive,
and Cast Success naming the before physical type and the schema's
declared type string when it is zero. -/
theorem cast_logging_per_column (schema : Schema) (df : DFrame) (col : String)
    (props : ColProps) (c : Col) (ts : String) (target : PDtype)
    (hnd : (schemaKeys schema).Nodup) (hmem : (col, props) ∈ schema)
    (hc : df.col? col = some c) (hts : props.type = some ts)
    (htm : typeMapLookup ts = some target) :
    (c.dtype = target →
      ((castPhase schema df).2).filter (fun e => e.column == col) = []) ∧
    (c.dtype ≠ target →
      c.nullCount ≤ (castColumn c target).nullCount ∧
      (c.nullCount < (castColumn c target).nullCount →
        ((castPhase schema df).2).filter (fun e => e.column == col)
          = [⟨"Cast Fail", col,
              "Failed to cast "
                ++ toString (((castColumn c target).nullCount : Int) - (c.nullCount : Int))
                ++ " rows to " ++ ts⟩]) ∧
      ((castColumn c target).nullCount = c.nullCount →
        ((castPhase schema df).2).filter (fun e => e.column == col)
          = [⟨"Cast Success", col,
              "Cast from " ++ PDtype.render c.dtype ++ " to " ++ ts⟩])) := by
  rw [castPhase_logs_filter hnd hmem hc]
  unfold castEntriesOf
  simp only [hc, hts, htm]
  constructor
  · intro hdt
    rw [if_pos hdt]
  · intro hdt
    rw [if_neg hdt]
    refine ⟨castColumn_nullCount_le c target, ?_, ?_⟩
    · intro hlt
      rw [if_pos (by omega)]
    · intro heq
      rw [if_neg (by omega)]

def wCastSchema : Schema := [("n", ({ type := some "integer" } : ColProps))]

def wCastDf : DFrame := DFrame.mk
  [("n", Col.mk PDtype.string [some (Value.vStr "1"), some (Value.vStr "x")])]

/-- C5 witness: a string column `["1", "x"]` cast to integer logs one
Cast Fail reporting exactly one newly-failed row. -/
theorem cast_logging_per_column_witness :
    ((castPhase wCastSchema wCastDf).2).filter (fun e => e.column == "n")
      = [⟨"Cast Fail", "n", "Failed to cast 1 rows to integer"⟩] := by
  have h := ((cast_logging_per_column wCastSchema wCastDf "n"
    ({ type := some "integer" } : ColProps)
    (Col.mk PDtype.string [some (Value.vStr "1"), some (Value.vStr "x")]) "integer"
    PDtype.int64 (by decide) (by simp [wCastSchema]) rfl rfl rfl).2 (by decide)).2.1 (by decide)
  rw [h]
  decide

/-! ### Batch rename and rename-entry counting (C1) -/

theorem harmonize_eq (schema : Schema) (df : DFrame) :
    harmonize schema df
      = ((castPhase schema (if (renamePhase schema df.columns).1.isEmpty then df
            else df.renameCols (renamePhase schema df.columns).1)).1,
         (renamePhase schema df.columns).2
           ++ (castPhase schema (if (renamePhase schema df.columns).1.isEmpty then df
                else df.renameCols (renamePhase schema df.columns).1)).2) := rfl

theorem castEntriesOf_action {df : DFrame} {it : String × ColProps} :
    ∀ e ∈ castEntriesOf df it, e.action = "Cast Fail" ∨ e.action = "Cast Success" := by
  intro e he
  unfold castEntriesOf at he
  cases hc : df.col? it.1 with
  | none => simp [hc] at he
  | some c =>
    simp only [hc] at he
    cases hts : it.2.type with
    | none => rw [hts] at he; simp at he
    | some ts =>
      rw [hts] at he
      cases htm : typeMapLookup ts with
      | none => simp only [htm] at he; simp at he
      | some target =>
        simp only [htm] at he
        by_cases hdt : c.dtype = target
        · simp [hdt] at he
        · rw [if_neg hdt] at he
          by_cases hlt : (0 : Int) < ((castColumn c target).nullCount : Int) - (c.nullCount : Int)
          · rw [if_pos hlt] at he
            simp only [List.mem_singleton] at he
            rw [he]
            exact Or.inl rfl
          · rw [if_neg hlt] at he
            simp only [List.mem_singleton] at he
            rw [he]
            exact Or.inr rfl

theorem castPhase_action :
    ∀ (schema : Schema) (df : DFrame) (logs : List LogEntry),
    ∀ e ∈ (schema.foldl castStep (df, logs)).2,
      e ∈ logs ∨ e.action = "Cast Fail" ∨ e.action = "Cast Success" := by
  intro schema
  induction schema with
  | nil => intro df logs e he; exact Or.inl he
  | cons it rest ih =>
    intro df logs e he
    rw [List.foldl_cons, castStep_eq] at he
    rcases ih _ _ e he with hmem | hp
    · rcases List.mem_append.mp hmem with h1 | h2
      · exact Or.inl h1
      · exact Or.inr (castEntriesOf_action e h2)
    · exact Or.inr hp

theorem renamePhase_logs_action {schema : Schema} {dfCols : List String} :
    ∀ e ∈ (renamePhase schema dfCols).2, e.action = "Rename" := by
  intro e he
  rw [renamePhase_eq] at he
  obtain ⟨p, _, rfl⟩ := List.mem_map.mp he
  rfl

theorem zip_map_countP (f : String → String) (g : String → String → Bool) :
    ∀ l : List String,
      (l.zip (l.map f)).countP (fun p => g p.1 p.2) = l.countP (fun n => g n (f n)) := by
  intro l
  induction l with
  | nil => rfl
  | cons a l ih => simp [List.zip_cons_cons, List.countP_cons, ih]

theorem countP_mem_eq_length {keys cols : List String} (hk : keys.Nodup) (hc : cols.Nodup)
    (hsub : ∀ k ∈ keys, k ∈ cols) :
    cols.countP (fun n => decide (n ∈ keys)) = keys.length := by
  rw [List.countP_eq_length_filter]
  refine List.Perm.length_eq ?_
  rw [List.perm_ext_iff_of_nodup (hc.filter _) hk]
  intro a
  simp only [List.mem_filter, decide_eq_true_eq]
  constructor
  · rintro ⟨_, h⟩
    exact h
  · intro h
    exact ⟨hsub a h, h⟩

/-- C1, amended: the whole report's Rename entries are exactly one entry
per pending rename recorded during rename resolution (in schema order,
each naming its source alias); the renames are applied as one batch at
the end of rename resolution (a column's final name is a single lookup
in the pending-rename map); and — provided no two canonical columns
record the same alias, which duplicate alias declarations can violate —
the number of Rename entries equals the number of columns actually
renamed. -/
theorem rename_batch_and_count (schema : Schema) (df : DFrame)
    (hsel : ((selectedPairs schema df.columns).map Prod.fst).Nodup)
    (hcols : df.columns.Nodup) :
    ((harmonize schema df).2).filter (fun e => e.action == "Rename")
      = (selectedPairs schema df.columns).map renameEntryOf ∧
    (harmonize schema df).1.columns
      = df.columns.map (fun n => (lookupA (renamePhase schema df.columns).1 n).getD n) ∧
    ((harmonize schema df).2).countP (fun e => e.action == "Rename")
      = (df.columns.zip ((harmonize schema df).1.columns)).countP (fun p => !(p.1 == p.2)) := by
  have hM : (renamePhase schema df.columns).1 = selectedPairs schema df.columns :=
    renameMap_eq hsel
  have hrlogs : (renamePhase schema df.columns).2
      = (selectedPairs schema df.columns).map renameEntryOf :=
    congrArg Prod.snd (renamePhase_eq schema df.columns)
  have h1 : ((harmonize schema df).2).filter (fun e => e.action == "Rename")
      = (selectedPairs schema df.columns).map renameEntryOf := by
    rw [harmonize_eq]
    show ((renamePhase schema df.columns).2 ++ _).filter _ = _
    rw [List.filter_append]
    have ha : ((renamePhase schema df.columns).2).filter (fun e => e.action == "Rename")
        = (renamePhase schema df.columns).2 := by
      rw [List.filter_eq_self]
      intro e he
      simp [renamePhase_logs_action e he]
    have hb : ((castPhase schema (if (renamePhase schema df.columns).1.isEmpty then df
          else df.renameCols (renamePhase schema df.columns).1)).2).filter
        (fun e => e.action == "Rename") = [] := by
      rw [List.filter_eq_nil_iff]
      intro e he hP
      rcases castPhase_action schema _ [] e he with h0 | h0 | h0
      · simp at h0
      · rw [h0] at hP
        exact absurd hP (by decide)
      · rw [h0] at hP
        exact absurd hP (by decide)
    rw [ha, hb, List.append_nil, hrlogs]
  have h2 : (harmonize schema df).1.columns
      = df.columns.map (fun n => (lookupA (renamePhase schema df.columns).1 n).getD n) := by
    rw [harmonize_eq]
    show (List.foldl castStep (_, []) schema).1.columns = _
    rw [castPhase_columns]
    by_cases hE : (renamePhase schema df.columns).1.isEmpty
    · have hnil : (renamePhase schema df.columns).1 = [] := List.isEmpty_iff.mp hE
      rw [if_pos hE, hnil]
      have : ∀ n : String, (lookupA [] n).getD n = n := fun n => rfl
      simp [this]
    · rw [if_neg hE, renameCols_columns]
  have h3 : ((harmonize schema df).2).countP (fun e => e.action == "Rename")
      = (df.columns.zip ((harmonize schema df).1.columns)).countP (fun p => !(p.1 == p.2)) := by
    rw [List.countP_eq_length_filter, h1, List.length_map, h2, hM]
    rw [zip_map_countP (fun n => (lookupA (selectedPairs schema df.columns) n).getD n)
      (fun a b => !(a == b)) df.columns]
    have hcong : df.columns.countP
        (fun n => !(n == (lookupA (selectedPairs schema df.columns) n).getD n))
        = df.columns.countP
          (fun n => decide (n ∈ (selectedPairs schema df.columns).map Prod.fst)) := by
      apply List.countP_congr
      intro n hn
      cases hl : lookupA (selectedPairs schema df.columns) n with
      | none =>
        have hk : n ∉ (selectedPairs schema df.columns).map Prod.fst := by
          intro hmem'
          have := lookupA_isSome_iff.mpr hmem'
          rw [hl] at this
          simp at this
        simp [hk]
      | some v =>
        have hpair := lookupA_some_mem hl
        have hv := selectedPairs_mem hpair
        have hne : n ≠ v := by
          intro hcontra
          exact hv.2.1 (hcontra ▸ hn)
        have hk : n ∈ (selectedPairs schema df.columns).map Prod.fst :=
          List.mem_map.mpr ⟨(n, v), hpair, rfl⟩
        simp [hne, hk]
    rw [hcong, countP_mem_eq_length hsel hcols ?_, List.length_map]
    intro k hk
    obtain ⟨p, hp, rfl⟩ := List.mem_map.mp hk
    exact (selectedPairs_mem hp).1
  exact ⟨h1, h2, h3⟩

def cexRenSchema : Schema :=
  [("c1", ({ aliases := ["a"] } : ColProps)), ("c2", ({ aliases := ["a"] } : ColProps))]

def cexRenDf : DFrame := DFrame.mk [("a", Col.mk PDtype.int64 [some (Value.vInt 1)])]

/-- C1, counterexample: two canonical columns declaring the same alias
over a table holding just that alias — the report carries two Rename
entries while only one column is actually renamed (the later pending
rename overwrites the earlier one in the rename map). -/
theorem rename_count_counterexample :
    ((harmonize cexRenSchema cexRenDf).2).countP (fun e => e.action == "Rename") = 2 ∧
    (cexRenDf.columns.zip ((harmonize cexRenSchema cexRenDf).1.columns)).countP
        (fun p => !(p.1 == p.2)) = 1 := by
  constructor
  · decide
  · decide

def wRenSchema : Schema :=
  [("c1", ({ aliases := ["a"] } : ColProps)), ("c2", ({ aliases := ["b"] } : ColProps))]

def wRenDf : DFrame := DFrame.mk
  [("a", Col.mk PDtype.int64 [some (Value.vInt 1)]),
   ("b", Col.mk PDtype.int64 [some (Value.vInt 2)]),
   ("k", Col.mk PDtype.int64 [some (Value.vInt 3)])]

/-- C1 witness: with distinct selected aliases, the Rename entries match
the pending renames one-for-one and their count equals the number of
columns whose name changed. -/
theorem rename_batch_and_count_witness :
    ((harmonize wRenSchema wRenDf).2).filter (fun e => e.action == "Rename")
      = (selectedPairs wRenSchema wRenDf.columns).map renameEntryOf ∧
    ((harmonize wRenSchema wRenDf).2).countP (fun e => e.action == "Rename")
      = (wRenDf.columns.zip ((harmonize wRenSchema wRenDf).1.columns)).countP
          (fun p => !(p.1 == p.2)) := by
  have h := rename_batch_and_count wRenSchema wRenDf (by decide) (by decide)
  exact ⟨h.1, h.2.2⟩
